import Mathlib

/-!
A shallow embedding of the memory-constrained DAG scheduler
(`src/scheduler.cpp`, `src/parser.cpp`, `include/model.hpp`) together with
proofs about its accounting kernel, frontier pruning, spill policy,
garbage collection, search drivers and fallback schedulers.

Modelling conventions:
* C++ `int` / `long` quantities are modelled as unbounded `Int`; the one
  place where the width of `int` is load-bearing (the `INT_MAX` sentinel in
  `pruneReadyListDynamic` and the saturation in `calculateDynamicImpact`)
  keeps the literal `2147483647` from the source.
* `std::unordered_map` / `std::unordered_set` become association lists and
  name lists in a fixed (insertion) order; the C++ containers iterate in an
  unspecified order, so a fixed order is one admissible refinement.
* `double` scores in `trySpillBest` become exact rational comparisons,
  realised by integer cross-multiplication (denominators are positive).
* Recursion uses explicit fuel in place of unbounded C++ recursion; the
  wall-clock deadline of `dfsScheduleLimited` is modelled as never expiring
  (real time is outside the embedding), while the expansion counter is
  modelled exactly.
-/

/-- Mirror of class `Node` (include/model.hpp): name, ordered input list,
`run_mem`, `output_mem`, `time_cost`, and the derived `peak` and `impact`. -/
structure Node where
  name : String
  inputs : List String
  run_mem : Int
  output_mem : Int
  time_cost : Int
  peak : Int
  impact : Int
deriving DecidableEq

/-- Mirror of the `Node` constructor: `peak = max(run_mem, output_mem)`,
`impact = output_mem`. -/
def mkNode (name : String) (inputs : List String)
    (run_mem output_mem time_cost : Int) : Node :=
  { name := name, inputs := inputs, run_mem := run_mem,
    output_mem := output_mem, time_cost := time_cost,
    peak := max run_mem output_mem, impact := output_mem }

/-- Mirror of struct `ScheduleState` (include/model.hpp). `computed` is the
element list of the `unordered_set`; `output_memory` is the entry list of the
`unordered_map`. -/
structure ScheduleState where
  execution_order : List String := []
  recompute_flags : List Bool := []
  current_memory : Int := 0
  memory_peak : Int := 0
  total_time : Int := 0
  computed : List String := []
  output_memory : List (String × Int) := []
deriving DecidableEq

/-- Mirror of struct `Problem` (include/model.hpp). -/
structure Problem where
  total_memory : Int := 0
  nodes : List (String × Node) := []
  dependencies : List (String × List String) := []
  successors : List (String × List String) := []
deriving DecidableEq

/-- Association-list lookup (`unordered_map::find`), first matching key. -/
def alookup (k : String) : List (String × α) → Option α
  | [] => none
  | kv :: rest => if kv.1 = k then some kv.2 else alookup k rest

/-- Erase the first entry with the given key (`unordered_map::erase(it)`). -/
def aerase (k : String) : List (String × α) → List (String × α)
  | [] => []
  | kv :: rest => if kv.1 = k then rest else kv :: aerase k rest

/-- Mirror of `map[k] = v`: replace the value of an existing key, else append. -/
def aupdate (k : String) (v : α) : List (String × α) → List (String × α)
  | [] => [(k, v)]
  | kv :: rest => if kv.1 = k then (k, v) :: rest else kv :: aupdate k v rest

/-- Mirror of `unordered_set::insert`: no-op if present, else append. -/
def setInsert (x : String) (l : List String) : List String :=
  if x ∈ l then l else l ++ [x]

/-- Mirror of `prob.nodes.at(name)`, defaulting to a zero node (the schedulers only
look up names that are present). -/
def findNode (prob : Problem) (name : String) : Node :=
  (alookup name prob.nodes).getD (mkNode name [] 0 0 0)

/-- Is a name's output resident (`output_memory.find != end`)? -/
def isResident (state : ScheduleState) (name : String) : Bool :=
  (alookup name state.output_memory).isSome

/-- Mirror of `calculateSequentialPeak` (scheduler.cpp:12-15). -/
def calculateSequentialPeak (state : ScheduleState) (node_B : Node)
    (impact_A : Int) : Int :=
  max state.memory_peak (node_B.peak + impact_A)

/-- Mirror of `isBetterSchedule` (scheduler.cpp:17-25). -/
def isBetterSchedule (state1 state2 : ScheduleState) (total_memory : Int) : Bool :=
  let s1_valid := state1.memory_peak ≤ total_memory
  let s2_valid := state2.memory_peak ≤ total_memory
  if ¬s1_valid ∧ ¬s2_valid then false
  else if s1_valid ∧ ¬s2_valid then true
  else if ¬s1_valid ∧ s2_valid then false
  else if state1.total_time ≠ state2.total_time then
    state1.total_time < state2.total_time
  else state1.memory_peak < state2.memory_peak

/-- Mirror of `getFreeableInputs` (scheduler.cpp:27-42): the distinct inputs
of `node` each of whose consumers (per `dependencies`) are all in
`state.computed`; inputs with no recorded consumers count as freeable. -/
def getFreeableInputs (node : Node) (state : ScheduleState)
    (dependencies : List (String × List String)) : List String :=
  node.inputs.dedup.filter fun input_name =>
    match alookup input_name dependencies with
    | none => true
    | some consumers => consumers.all fun c => state.computed.contains c

/-- Mirror of `calculateDynamicImpact` (scheduler.cpp:61-78), including the
saturation of positive impacts at `INT_MAX`. -/
def calculateDynamicImpact (node : Node) (state : ScheduleState)
    (dependencies : List (String × List String))
    (output_memory : List (String × Int)) : Int :=
  let postState := { state with computed := setInsert node.name state.computed }
  let freeable := getFreeableInputs node postState dependencies
  let freed := (freeable.map fun i => (alookup i output_memory).getD 0).sum
  let impact := node.output_mem - freed
  if impact < 0 then impact else min impact 2147483647

/-- The freeing fold that `executeNode` performs: accumulate the freed sizes
and erase the freed entries. -/
def freeInputs (freeable : List String) (acc : Int × List (String × Int)) :
    Int × List (String × Int) :=
  freeable.foldl
    (fun acc nm =>
      match alookup nm acc.2 with
      | some v => (acc.1 + v, aerase nm acc.2)
      | none => acc)
    acc

/-- Mirror of `executeNode` (scheduler.cpp:80-108). -/
def executeNode (node_name : String) (prob : Problem)
    (state : ScheduleState) : ScheduleState :=
  let node := findNode prob node_name
  let predicted_peak := calculateSequentialPeak state node state.current_memory
  let postStateForFree := { state with computed := setInsert node.name state.computed }
  let freeable := getFreeableInputs node postStateForFree prob.dependencies
  let fr := freeInputs freeable (0, state.output_memory)
  let impact := node.output_mem - fr.1
  let new_current := max 0 (state.current_memory + impact)
  { execution_order := state.execution_order ++ [node.name]
    recompute_flags := state.recompute_flags ++ [state.computed.contains node.name]
    current_memory := new_current
    memory_peak := max state.memory_peak predicted_peak
    total_time := state.total_time + node.time_cost
    computed := setInsert node.name state.computed
    output_memory := aupdate node.name node.output_mem fr.2 }

/-- Mirror of `getReadyNodeNames` (scheduler.cpp:44-59): nodes not yet
computed all of whose inputs are resident. -/
def getReadyNodeNames (prob : Problem) (state : ScheduleState) : List String :=
  (prob.nodes.filter fun kv =>
    !(state.computed.contains kv.1) &&
      kv.2.inputs.all fun inName => isResident state inName).map (·.1)

/-- Mirror of `getRecomputeCandidates` (scheduler.cpp:137-163): nodes whose
output is absent, that still have an uncomputed consumer, and whose inputs
are all resident. -/
def getRecomputeCandidates (prob : Problem) (state : ScheduleState) : List String :=
  (prob.nodes.filter fun kv =>
    !(isResident state kv.1) &&
      (match alookup kv.1 prob.successors with
       | none => false
       | some cons => cons.any fun c => !(state.computed.contains c)) &&
      kv.2.inputs.all fun inName => isResident state inName).map (·.1)

/-- The selection loop of `pruneReadyListDynamic` (scheduler.cpp:114-123):
scan the ready list keeping the name of the best negative-impact candidate
and its peak, with the peak accumulator initialised to `INT_MAX`
(`best_negative == nullptr` is the `none` accumulator). -/
def pruneSelect (prob : Problem) (state : ScheduleState) :
    List String → Option String × Int → Option String × Int
  | [], acc => acc
  | nm :: rest, acc =>
    let node := findNode prob nm
    let dynImpact :=
      calculateDynamicImpact node state prob.dependencies state.output_memory
    pruneSelect prob state rest
      (if dynImpact ≤ 0 ∧ node.peak < acc.2 then (some nm, node.peak) else acc)

/-- Mirror of `pruneReadyListDynamic` (scheduler.cpp:110-133). -/
def pruneReadyListDynamic (ready_names : List String) (prob : Problem)
    (state : ScheduleState) : List String :=
  let sel := pruneSelect prob state ready_names (none, 2147483647)
  match sel.1 with
  | none => ready_names
  | some best_name =>
    let best := findNode prob best_name
    let predicted_peak := calculateSequentialPeak state best state.current_memory
    if predicted_peak ≤ state.memory_peak then [best_name]
    else
      let pruned := ready_names.filter fun nm =>
        nm = best_name || decide ((findNode prob nm).peak < sel.2)
      if pruned.isEmpty then ready_names else pruned

/-- Mirror of `trySpillLargest` (scheduler.cpp:166-175): evict the first
largest resident output (`std::max_element` keeps the first maximum). -/
def trySpillLargest (state : ScheduleState) : Bool × ScheduleState :=
  match state.output_memory with
  | [] => (false, state)
  | e :: rest =>
    let m := (e :: rest).foldl (fun best kv => if best.2 < kv.2 then kv else best) e
    (true,
      { state with
        output_memory := aerase m.1 state.output_memory
        current_memory := max 0 (state.current_memory - m.2) })

/-- How many successors of `name` are not yet computed (the `remaining`
count inside `trySpillBest`). -/
def remainingConsumers (prob : Problem) (state : ScheduleState)
    (name : String) : Nat :=
  (((alookup name prob.successors).getD []).filter
    fun cons => !(state.computed.contains cons)).length

/-- Accumulator of the `trySpillBest` scan: best name (empty string when
none yet), best score as an exact fraction `bestScoreNum / bestScoreDen`
(denominator always positive), best size, and the running `current_memory`
(which the loop mutates when it meets an output with no remaining
consumers). -/
structure SpillScan where
  best : String
  bestScoreNum : Int
  bestScoreDen : Int
  bestSize : Int
  cur : Int

/-- Mirror of `trySpillBest` (scheduler.cpp:178-204): score each resident
output of a known node by `size / max(1, time_cost)`; outputs with no
remaining consumers have their size subtracted from `current_memory` inside
the scan (the source comments that the entry should also be erased, but no
erase is performed); finally evict the best scorer if any. The C++ `double`
score comparison `size/t > best` is modelled exactly on rationals via
cross-multiplication (both denominators are ≥ 1). -/
def trySpillBest (prob : Problem) (state : ScheduleState) : Bool × ScheduleState :=
  let scan := state.output_memory.foldl
    (fun (acc : SpillScan) kv =>
      match alookup kv.1 prob.nodes with
      | none => acc
      | some node =>
        let t := max 1 node.time_cost
        let remaining := remainingConsumers prob state kv.1
        let cur' := if remaining = 0 then max 0 (acc.cur - kv.2) else acc.cur
        if acc.bestScoreNum * t < kv.2 * acc.bestScoreDen then
          { best := kv.1, bestScoreNum := kv.2, bestScoreDen := t,
            bestSize := kv.2, cur := cur' }
        else { acc with cur := cur' })
    { best := "", bestScoreNum := -1, bestScoreDen := 1, bestSize := 0,
      cur := state.current_memory }
  if scan.best ≠ "" then
    (true,
      { state with
        output_memory := aerase scan.best state.output_memory
        current_memory := max 0 (scan.cur - scan.bestSize) })
  else (false, { state with current_memory := scan.cur })

/-- Does `name` still have an uncomputed consumer (the `needed` test of
`garbageCollectOutputs`)? A name with no successors entry is not needed. -/
def gcNeeded (prob : Problem) (computed : List String) (name : String) : Bool :=
  match alookup name prob.successors with
  | none => false
  | some cons => cons.any fun c => !(computed.contains c)

/-- The erase loop of `garbageCollectOutputs`: for each collected name,
subtract its size (clamped at zero) and erase its entry. -/
def gcErase : List String → Int → List (String × Int) → Int × List (String × Int)
  | [], cur, l => (cur, l)
  | n :: ns, cur, l =>
    match alookup n l with
    | some v => gcErase ns (max 0 (cur - v)) (aerase n l)
    | none => gcErase ns cur l

/-- Mirror of `garbageCollectOutputs` (scheduler.cpp:207-227): collect every
resident output with no uncomputed consumer, then erase them, subtracting
their sizes from `current_memory`. -/
def garbageCollectOutputs (prob : Problem) (state : ScheduleState) : ScheduleState :=
  let toErase := (state.output_memory.filter fun kv =>
    !(gcNeeded prob state.computed kv.1)).map (·.1)
  let r := gcErase toErase state.current_memory state.output_memory
  { state with current_memory := r.1, output_memory := r.2 }

/-- Mirror of `buildProblem` (parser.cpp:140-153). `emplace` inserts a node
only when the key is absent; `dependencies[input].insert` adds a consumer
once; `successors[input].push_back` appends (duplicates possible); the final
`prob.successors[s.name]` materialises an (empty) successors entry. -/
structure ParsedNodeSpec where
  name : String
  run_mem : Int := 0
  output_mem : Int := 0
  time_cost : Int := 0
  inputs : List String := []

/-- Mirror of `emplace`: insert only if the key is not present. -/
def aemplace (k : String) (v : α) (l : List (String × α)) : List (String × α) :=
  if (alookup k l).isSome then l else l ++ [(k, v)]

/-- Mirror of `dependencies[input].insert(name)`: set-insert into the entry's list,
creating the entry when absent. -/
def depInsert (input name : String) (l : List (String × List String)) :
    List (String × List String) :=
  match alookup input l with
  | none => l ++ [(input, [name])]
  | some cons => aupdate input (if name ∈ cons then cons else cons ++ [name]) l

/-- Mirror of `successors[input].push_back(name)`: append into the entry's list,
creating the entry when absent. -/
def succPush (input name : String) (l : List (String × List String)) :
    List (String × List String) :=
  match alookup input l with
  | none => l ++ [(input, [name])]
  | some cons => aupdate input (cons ++ [name]) l

/-- Mirror of `successors[name]`: ensure an entry exists. -/
def succEnsure (name : String) (l : List (String × List String)) :
    List (String × List String) :=
  match alookup name l with
  | none => l ++ [(name, [])]
  | some _ => l

def buildProblem (total_memory : Int) (specs : List ParsedNodeSpec) : Problem :=
  let nodes := specs.foldl
    (fun acc s =>
      aemplace s.name (mkNode s.name s.inputs s.run_mem s.output_mem s.time_cost) acc)
    []
  let maps := specs.foldl
    (fun (acc : List (String × List String) × List (String × List String)) s =>
      let acc2 := s.inputs.foldl
        (fun (a : List (String × List String) × List (String × List String)) input =>
          (depInsert input s.name a.1, succPush input s.name a.2))
        acc
      (acc2.1, succEnsure s.name acc2.2))
    ([], [])
  { total_memory := total_memory, nodes := nodes,
    dependencies := maps.1, successors := maps.2 }

/-- First schedule of the C2 counterexample: infeasible under budget 5,
total time 1. -/
def stateC2a : ScheduleState := { memory_peak := 10, total_time := 1 }

/-- Second schedule of the C2 counterexample: infeasible under budget 5,
total time 2. -/
def stateC2b : ScheduleState := { memory_peak := 10, total_time := 2 }

/-- The negative-impact selection as the specification words it: the
candidate with `dynamic_impact ≤ 0` of minimum peak (first wins on ties),
with no `INT_MAX` sentinel. Used to compare `pruneReadyListDynamic` against
the stated rule. -/
def pruneSelectSpec (prob : Problem) (state : ScheduleState) :
    List String → Option (String × Int) → Option (String × Int)
  | [], acc => acc
  | nm :: rest, acc =>
    let node := findNode prob nm
    let dynImpact :=
      calculateDynamicImpact node state prob.dependencies state.output_memory
    pruneSelectSpec prob state rest
      (match acc with
       | none => if dynImpact ≤ 0 then some (nm, node.peak) else none
       | some b =>
         if dynImpact ≤ 0 ∧ node.peak < b.2 then (some (nm, node.peak)) else some b)

/-- The negative-impact pruning rule as the specification words it,
built on `pruneSelectSpec`: if a negative candidate `N*` exists, return the
singleton when its sequential peak does not raise the observed ceiling, and
otherwise keep `N*` plus all strictly smaller peaks. -/
def pruneReadyListDynamicSpec (ready_names : List String) (prob : Problem)
    (state : ScheduleState) : List String :=
  match pruneSelectSpec prob state ready_names none with
  | none => ready_names
  | some best =>
    let bestNode := findNode prob best.1
    let predicted_peak := calculateSequentialPeak state bestNode state.current_memory
    if predicted_peak ≤ state.memory_peak then [best.1]
    else
      let pruned := ready_names.filter fun nm =>
        nm = best.1 || decide ((findNode prob nm).peak < best.2)
      if pruned.isEmpty then ready_names else pruned

/-- C3 counterexample problem: two source nodes whose `run_mem` is exactly
`INT_MAX`, so both peaks equal the selection loop's sentinel. `X` produces
nothing (`dynamic_impact = 0 ≤ 0`), `Y` produces one unit. -/
def probC3 : Problem :=
  buildProblem 100
    [{ name := "X", run_mem := 2147483647, output_mem := 0, time_cost := 1 },
     { name := "Y", run_mem := 2147483647, output_mem := 1, time_cost := 1 }]

/-- The best-so-far update of the search drivers
(`!has_best || isBetterSchedule(current, best, total)`), with the
`best`/`has_best` pair modelled as an `Option`. -/
def updateBest (current : ScheduleState) (best : Option ScheduleState)
    (total_memory : Int) : Option ScheduleState :=
  match best with
  | none => some current
  | some b => if isBetterSchedule current b total_memory then some current else b

/-- Mirror of `dfsSchedule` (scheduler.cpp:229-246): on entering a state,
record it if complete, otherwise garbage-collect, compute and prune the
ready list, and expand each in-budget candidate in order (the C++ sibling
loop threads `best` through the siblings, i.e. a left fold). `fuel` bounds
the recursion depth; since each expansion strictly grows `computed`, any
fuel exceeding the node count is enough. -/
def dfsSchedule (prob : Problem) :
    Nat → ScheduleState → Option ScheduleState → Option ScheduleState
  | 0, _, best => best
  | fuel + 1, current, best =>
    if current.computed.length = prob.nodes.length then
      updateBest current best prob.total_memory
    else
      let current' := garbageCollectOutputs prob current
      let ready := getReadyNodeNames prob current'
      if ready.isEmpty then best
      else
        (pruneReadyListDynamic ready prob current').foldl
          (fun b nm =>
            let node := findNode prob nm
            let predicted :=
              calculateSequentialPeak current' node current'.current_memory
            if prob.total_memory < predicted then b
            else dfsSchedule prob fuel (executeNode nm prob current') b)
          best

/-- Mirror of `schedule` (scheduler.cpp:248-253): run the unbounded DFS from
the empty state (fuel `|nodes| + 1` covers every possible recursion depth)
and return the best found, or the default state when none was found. -/
def schedule (prob : Problem) : ScheduleState :=
  (dfsSchedule prob (prob.nodes.length + 1) {} none).getD {}

/-- Scenario 1 of the specification: linear chain `A → B → C` with run 10,
output 20, time 1 for each node, under budget 100. -/
def probC5 : Problem :=
  buildProblem 100
    [{ name := "A", run_mem := 10, output_mem := 20, time_cost := 1 },
     { name := "B", run_mem := 10, output_mem := 20, time_cost := 1,
       inputs := ["A"] },
     { name := "C", run_mem := 10, output_mem := 20, time_cost := 1,
       inputs := ["B"] }]

/-- The spill attempt of the bounded DFS (scheduler.cpp:277-282):
`trySpillBest(prob, spilled) || trySpillLargest(spilled)`. The
short-circuit applies `trySpillLargest` to the state already mutated by a
failed `trySpillBest`. -/
def dfsSpill (prob : Problem) (s : ScheduleState) : Option ScheduleState :=
  let r1 := trySpillBest prob s
  if r1.1 then some r1.2
  else
    let r2 := trySpillLargest r1.2
    if r2.1 then some r2.2 else none

/-- The candidate list of the bounded DFS (scheduler.cpp:263-268): ready
nodes, falling back to recompute candidates when none are ready. -/
def dfsReady (prob : Problem) (s : ScheduleState) : List String :=
  let ready := getReadyNodeNames prob s
  if ready.isEmpty then getRecomputeCandidates prob s else ready

/-- The pruned candidate list the bounded DFS expands. -/
def dfsPruned (prob : Problem) (s : ScheduleState) : List String :=
  pruneReadyListDynamic (dfsReady prob s) prob s

/-- The `allExceed` test of the bounded DFS (scheduler.cpp:271-276). -/
def dfsAllExceed (prob : Problem) (s : ScheduleState) : Bool :=
  (dfsPruned prob s).all fun nm =>
    decide (prob.total_memory <
      calculateSequentialPeak s (findNode prob nm) s.current_memory)

/-- Mirror of `dfsScheduleLimited` (scheduler.cpp:255-298). The pair
accumulator carries the best-so-far and the remaining expansion budget
(`expansionsLeft`); the wall-clock deadline is modelled as never expiring.
Fuel bounds recursion depth only — every actual recursion is either an
expansion (decrementing the budget) or a spill (shrinking
`output_memory`), so sufficiently large fuel is never exhausted. -/
def dfsScheduleLimited (prob : Problem) :
    Nat → ScheduleState → Option ScheduleState → Nat →
      Option ScheduleState × Nat
  | 0, _, best, left => (best, left)
  | fuel + 1, current, best, left =>
    if left = 0 then (best, left)
    else if current.computed.length = prob.nodes.length then
      (updateBest current best prob.total_memory, left)
    else
      let ready := dfsReady prob current
      if ready.isEmpty then (best, left)
      else if dfsAllExceed prob current then
        match dfsSpill prob current with
        | some spilled => dfsScheduleLimited prob fuel spilled best left
        | none => (best, left)
      else
        (pruneReadyListDynamic ready prob current).foldl
          (fun acc nm =>
            if acc.2 = 0 then acc
            else
              let node := findNode prob nm
              let predicted :=
                calculateSequentialPeak current node current.current_memory
              if prob.total_memory < predicted then acc
              else
                dfsScheduleLimited prob fuel (executeNode nm prob current)
                  acc.1 (acc.2 - 1))
          (best, left)

/-- Mirror of `scheduleWithLimits` (scheduler.cpp:300-309), minus the
wall-clock limit: apply the zero default for `maxExpansions` and run the
bounded DFS from the empty state. The fuel `2 * budget + 2` dominates every
reachable recursion depth (at most one spill per previously created
output, one output per expansion). -/
def scheduleWithLimits (prob : Problem) (maxExpansions : Nat) : ScheduleState :=
  let budget := if maxExpansions = 0 then 100000 else maxExpansions
  ((dfsScheduleLimited prob (2 * budget + 2) {} none budget).1).getD {}

/-- The bounded DFS as the specification describes it (§4.4): identical to
`dfsScheduleLimited` except that step 2 — `garbageCollectOutputs` — runs on
entering every incomplete state, before the ready set is computed. Second
definition written from the spec's words, for comparison against the
implementation. -/
def dfsScheduleLimitedSpec (prob : Problem) :
    Nat → ScheduleState → Option ScheduleState → Nat →
      Option ScheduleState × Nat
  | 0, _, best, left => (best, left)
  | fuel + 1, current, best, left =>
    if left = 0 then (best, left)
    else if current.computed.length = prob.nodes.length then
      (updateBest current best prob.total_memory, left)
    else
      let current' := garbageCollectOutputs prob current
      let ready := dfsReady prob current'
      if ready.isEmpty then (best, left)
      else if dfsAllExceed prob current' then
        match dfsSpill prob current' with
        | some spilled => dfsScheduleLimitedSpec prob fuel spilled best left
        | none => (best, left)
      else
        (pruneReadyListDynamic ready prob current').foldl
          (fun acc nm =>
            if acc.2 = 0 then acc
            else
              let node := findNode prob nm
              let predicted :=
                calculateSequentialPeak current' node current'.current_memory
              if prob.total_memory < predicted then acc
              else
                dfsScheduleLimitedSpec prob fuel (executeNode nm prob current')
                  acc.1 (acc.2 - 1))
          (best, left)

/-- Wrapper `scheduleWithLimits` built on the spec-side bounded DFS. -/
def scheduleWithLimitsSpec (prob : Problem) (maxExpansions : Nat) : ScheduleState :=
  let budget := if maxExpansions = 0 then 100000 else maxExpansions
  ((dfsScheduleLimitedSpec prob (2 * budget + 2) {} none budget).1).getD {}

/-- C7 counterexample problem: two independent nodes; `G`'s output (20) has
no consumers, `H` peaks at 30. Budget 100. -/
def probC7 : Problem :=
  buildProblem 100
    [{ name := "G", run_mem := 1, output_mem := 20, time_cost := 1 },
     { name := "H", run_mem := 1, output_mem := 30, time_cost := 1 }]

/-- States the bounded DFS (`dfsScheduleLimited`) can be entered with,
starting from the empty state, for a sufficient expansion budget / time
limit: the root state; after executing an in-budget pruned candidate when
not all candidates exceed the budget (scheduler.cpp:284-297); and after a
successful spill when all candidates exceed the budget
(scheduler.cpp:277-282). -/
inductive ReachDFS (prob : Problem) : ScheduleState → Prop
  | init : ReachDFS prob {}
  | exec (s : ScheduleState) (nm : String) :
      ReachDFS prob s →
      s.computed.length ≠ prob.nodes.length →
      (dfsReady prob s).isEmpty = false →
      nm ∈ dfsPruned prob s →
      dfsAllExceed prob s = false →
      calculateSequentialPeak s (findNode prob nm) s.current_memory ≤
        prob.total_memory →
      ReachDFS prob (executeNode nm prob s)
  | spill (s s' : ScheduleState) :
      ReachDFS prob s →
      s.computed.length ≠ prob.nodes.length →
      (dfsReady prob s).isEmpty = false →
      dfsAllExceed prob s = true →
      dfsSpill prob s = some s' →
      ReachDFS prob s'

/-- C1 counterexample problem: `A` (output 10, no consumers, expensive to
recompute), `B` (output 20, consumed by `C`), and `C`, whose workspace of
200 forces a spill once `A` and `B` are resident under budget 100. -/
def probC1 : Problem :=
  buildProblem 100
    [{ name := "A", run_mem := 10, output_mem := 10, time_cost := 100 },
     { name := "B", run_mem := 20, output_mem := 20, time_cost := 1 },
     { name := "C", run_mem := 200, output_mem := 1, time_cost := 1,
       inputs := ["B"] }]

/-- The DFS state after executing `A` then `B` on `probC1`. -/
def stateC1 : ScheduleState := executeNode "B" probC1 (executeNode "A" probC1 {})

/-- The state the bounded DFS recurses on after the forced spill at
`stateC1`. -/
def stateC1bad : ScheduleState := (dfsSpill probC1 stateC1).getD {}

/-- Accumulator of the greedy selection loop (scheduler.cpp:317-326):
`bestName` (empty when none), `bestPredPeak` and `bestTime`, both
initialised to the `INT_MAX` sentinel. -/
structure GreedyAcc where
  best : String
  bestPredPeak : Int
  bestTime : Int

/-- The candidate selection of `greedySchedule` (scheduler.cpp:318-326):
skip over-budget candidates, keep the (predicted peak, time) minimum. -/
def greedySelect (prob : Problem) (cur : ScheduleState) :
    List String → GreedyAcc → GreedyAcc
  | [], acc => acc
  | nm :: rest, acc =>
    let node := findNode prob nm
    let predicted := calculateSequentialPeak cur node cur.current_memory
    if prob.total_memory < predicted then greedySelect prob cur rest acc
    else if predicted < acc.bestPredPeak ∨
        (predicted = acc.bestPredPeak ∧ node.time_cost < acc.bestTime) then
      greedySelect prob cur rest
        { best := nm, bestPredPeak := predicted, bestTime := node.time_cost }
    else greedySelect prob cur rest acc

/-- The while-loop of `greedySchedule` (scheduler.cpp:311-331), with fuel:
each iteration executes one ready node, so fuel beyond the node count is
never exhausted. -/
def greedyLoop (prob : Problem) : Nat → ScheduleState → ScheduleState
  | 0, cur => cur
  | fuel + 1, cur =>
    if cur.computed.length < prob.nodes.length then
      let ready := getReadyNodeNames prob cur
      if ready.isEmpty then cur
      else
        let sel := greedySelect prob cur ready
          { best := "", bestPredPeak := 2147483647, bestTime := 2147483647 }
        if sel.best = "" then cur
        else greedyLoop prob fuel (executeNode sel.best prob cur)
    else cur

/-- Mirror of `greedySchedule` (scheduler.cpp:311-331). -/
def greedySchedule (prob : Problem) : ScheduleState :=
  greedyLoop prob (prob.nodes.length + 1) {}

/-- Accumulator of the heuristic selection loop (scheduler.cpp:339-354). -/
structure HeurAcc where
  best : String
  bestPredPeak : Int
  bestTime : Int
  pickedNegative : Bool

/-- The candidate selection of `heuristicSchedule` (scheduler.cpp:340-354):
skip over-budget candidates; a negative-dynamic-impact candidate is
preferred, ties broken by smaller peak; otherwise minimise
(predicted peak, time). -/
def heuristicSelect (prob : Problem) (cur : ScheduleState) :
    List String → HeurAcc → HeurAcc
  | [], acc => acc
  | nm :: rest, acc =>
    let node := findNode prob nm
    let predicted := calculateSequentialPeak cur node cur.current_memory
    if prob.total_memory < predicted then heuristicSelect prob cur rest acc
    else
      let dynImpact :=
        calculateDynamicImpact node cur prob.dependencies cur.output_memory
      if dynImpact ≤ 0 then
        if ¬acc.pickedNegative ∨ node.peak < (findNode prob acc.best).peak then
          heuristicSelect prob cur rest { acc with best := nm, pickedNegative := true }
        else heuristicSelect prob cur rest acc
      else if acc.pickedNegative then heuristicSelect prob cur rest acc
      else if predicted < acc.bestPredPeak ∨
          (predicted = acc.bestPredPeak ∧ node.time_cost < acc.bestTime) then
        heuristicSelect prob cur rest
          { best := nm, bestPredPeak := predicted, bestTime := node.time_cost,
            pickedNegative := false }
      else heuristicSelect prob cur rest acc

/-- The while-loop of `heuristicSchedule` (scheduler.cpp:334-359). -/
def heuristicLoop (prob : Problem) : Nat → ScheduleState → ScheduleState
  | 0, cur => cur
  | fuel + 1, cur =>
    if cur.computed.length < prob.nodes.length then
      let ready := getReadyNodeNames prob cur
      if ready.isEmpty then cur
      else
        let sel := heuristicSelect prob cur ready
          { best := "", bestPredPeak := 2147483647, bestTime := 2147483647,
            pickedNegative := false }
        if sel.best = "" then cur
        else heuristicLoop prob fuel (executeNode sel.best prob cur)
    else cur

/-- Mirror of `heuristicSchedule` (scheduler.cpp:334-359). -/
def heuristicSchedule (prob : Problem) : ScheduleState :=
  heuristicLoop prob (prob.nodes.length + 1) {}

/-- Insert into a list sorted by the strict-less comparator `lt`. -/
def isortInsert (lt : α → α → Bool) (x : α) : List α → List α
  | [] => [x]
  | y :: rest => if lt x y then x :: y :: rest else y :: isortInsert lt x rest

/-- Insertion sort by a strict-less comparator. `std::sort` leaves the order
of tie elements unspecified; this sort is one admissible outcome. -/
def isortBy (lt : α → α → Bool) : List α → List α
  | [] => []
  | x :: rest => isortInsert lt x (isortBy lt rest)

/-- The (name, predicted peak, time) candidate comparator used by the beam
and lookahead schedulers (scheduler.cpp:388-391, 429-432). -/
def candLess (a b : String × Int × Int) : Bool :=
  if a.2.1 ≠ b.2.1 then a.2.1 < b.2.1 else a.2.2 < b.2.2

/-- The beam ranking comparator (scheduler.cpp:400-406): valid first, then
smaller time, then smaller peak. -/
def beamStateLess (total_memory : Int) (a b : ScheduleState) : Bool :=
  let aValid : Bool := a.memory_peak ≤ total_memory
  let bValid : Bool := b.memory_peak ≤ total_memory
  if aValid ≠ bValid then aValid
  else if a.total_time ≠ b.total_time then a.total_time < b.total_time
  else a.memory_peak < b.memory_peak

/-- The in-budget candidates of one beam state, sorted by (peak, time)
(scheduler.cpp:380-391). -/
def beamCands (prob : Problem) (cur : ScheduleState) : List (String × Int × Int) :=
  isortBy candLess <|
    (getReadyNodeNames prob cur).filterMap fun nm =>
      let node := findNode prob nm
      let p := calculateSequentialPeak cur node cur.current_memory
      if prob.total_memory < p then none else some (nm, p, node.time_cost)

/-- One push of the inner expansion loop (scheduler.cpp:392-396): while the
expansion budget lasts, execute a candidate and append the result to the
next beam. The accumulator is (next beam, expansions so far, best so
far). -/
def beamPush (prob : Problem) (maxExpansions : Nat) (cur : ScheduleState)
    (a : List ScheduleState × Nat × Option ScheduleState)
    (c : String × Int × Int) : List ScheduleState × Nat × Option ScheduleState :=
  if a.2.1 < maxExpansions then
    (a.1 ++ [executeNode c.1 prob cur], a.2.1 + 1, a.2.2)
  else a

/-- Expansion of a single beam member (scheduler.cpp:373-397): complete
states update the best; otherwise up to `beamWidth` sorted candidates are
executed and appended to the next beam while the expansion budget lasts. -/
def beamExpandOne (prob : Problem) (beamWidth maxExpansions : Nat)
    (acc : List ScheduleState × Nat × Option ScheduleState)
    (cur : ScheduleState) : List ScheduleState × Nat × Option ScheduleState :=
  if cur.computed.length = prob.nodes.length then
    (acc.1, acc.2.1, updateBest cur acc.2.2 prob.total_memory)
  else if (getReadyNodeNames prob cur).isEmpty then acc
  else
    let cands := beamCands prob cur
    let expandCount := min cands.length beamWidth
    (cands.take expandCount).foldl (beamPush prob maxExpansions cur) acc

/-- The beam-search main loop (scheduler.cpp:371-409), with fuel: every
round that produces a non-empty next beam consumed at least one expansion,
so fuel beyond the expansion budget is never exhausted. Returns the final
beam (for the no-best fallback) and the best complete state found. -/
def beamLoop (prob : Problem) (beamWidth maxExpansions : Nat) :
    Nat → List ScheduleState → Nat → Option ScheduleState →
      List ScheduleState × Option ScheduleState
  | 0, beam, _, best => (beam, best)
  | fuel + 1, beam, expansions, best =>
    if beam.isEmpty ∨ ¬(expansions < maxExpansions) then (beam, best)
    else
      let r := beam.foldl (beamExpandOne prob beamWidth maxExpansions)
        ([], expansions, best)
      if r.1.isEmpty then (beam, r.2.2)
      else
        beamLoop prob beamWidth maxExpansions fuel
          ((isortBy (beamStateLess prob.total_memory) r.1).take beamWidth)
          r.2.1 r.2.2

/-- Mirror of `beamSearchSchedule` (scheduler.cpp:362-411), including the
zero-argument defaults (32 and 200000). -/
def beamSearchSchedule (prob : Problem) (beamWidth maxExpansions : Nat) :
    ScheduleState :=
  let bw := if beamWidth = 0 then 32 else beamWidth
  let me := if maxExpansions = 0 then 200000 else maxExpansions
  let r := beamLoop prob bw me (me + 1) [{}] 0 none
  match r.2 with
  | some b => b
  | none => r.1.headD {}

/-- The greedy pick inside the lookahead rollout (scheduler.cpp:441-447):
minimise (predicted peak, time) with no feasibility filter, `INT_MAX`
sentinels. -/
def dpPick (prob : Problem) (tmp : ScheduleState) :
    List String → GreedyAcc → GreedyAcc
  | [], acc => acc
  | nm :: rest, acc =>
    let node := findNode prob nm
    let p := calculateSequentialPeak tmp node tmp.current_memory
    if p < acc.bestPredPeak ∨
        (p = acc.bestPredPeak ∧ node.time_cost < acc.bestTime) then
      dpPick prob tmp rest
        { best := nm, bestPredPeak := p, bestTime := node.time_cost }
    else dpPick prob tmp rest acc

/-- The rollout loop of `evalPath` (scheduler.cpp:437-451): starting at
depth 1, greedily extend while depth < lookaheadDepth and the state is
incomplete; fuel is the remaining depth. -/
def evalPathLoop (prob : Problem) : Nat → ScheduleState → ScheduleState
  | 0, tmp => tmp
  | fuel + 1, tmp =>
    if tmp.computed.length < prob.nodes.length then
      let r := getReadyNodeNames prob tmp
      if r.isEmpty then tmp
      else
        let pick := dpPick prob tmp r
          { best := "", bestPredPeak := 2147483647, bestTime := 2147483647 }
        if pick.best = "" then tmp
        else evalPathLoop prob fuel (executeNode pick.best prob tmp)
    else tmp

/-- Mirror of `evalPath` (scheduler.cpp:434-453): execute `first`, roll out
up to `lookaheadDepth - 1` greedy extensions, return (peak, time). -/
def evalPath (prob : Problem) (lookaheadDepth : Nat) (start : ScheduleState)
    (first : String) : Int × Int :=
  let tmp := evalPathLoop prob (lookaheadDepth - 1) (executeNode first prob start)
  (tmp.memory_peak, tmp.total_time)

/-- One step of the rollout-scoring loop (scheduler.cpp:454-459): keep the
candidate whose rollout attains the feasible (peak, time) minimum. -/
def dpStep (prob : Problem) (lookaheadDepth : Nat) (cur : ScheduleState)
    (acc : GreedyAcc) (c : String × Int × Int) : GreedyAcc :=
  let pt := evalPath prob lookaheadDepth cur c.1
  if pt.1 ≤ prob.total_memory ∧ (pt.1 < acc.bestPredPeak ∨
      (pt.1 = acc.bestPredPeak ∧ pt.2 < acc.bestTime)) then
    { best := c.1, bestPredPeak := pt.1, bestTime := pt.2 }
  else acc

/-- The per-step candidate choice of `dpGreedySchedule`
(scheduler.cpp:454-463): evaluate the top `branchFactor` candidates'
rollouts, keep the feasible (peak, time) minimum, and fall back to the
first sorted candidate when none is feasible. -/
def dpChoose (prob : Problem) (lookaheadDepth : Nat) (cur : ScheduleState)
    (cands : List (String × Int × Int)) (explore : Nat) : String :=
  let sel := (cands.take explore).foldl (dpStep prob lookaheadDepth cur)
    { best := "", bestPredPeak := 2147483647, bestTime := 2147483647 }
  if sel.best = "" then (cands.headD ("", 0, 0)).1 else sel.best

/-- The while-loop of `dpGreedySchedule` (scheduler.cpp:417-465), with
fuel. -/
def dpGreedyLoop (prob : Problem) (lookaheadDepth branchFactor : Nat) :
    Nat → ScheduleState → ScheduleState
  | 0, cur => cur
  | fuel + 1, cur =>
    if cur.computed.length < prob.nodes.length then
      let ready := getReadyNodeNames prob cur
      if ready.isEmpty then cur
      else
        let cands := isortBy candLess <| ready.map fun nm =>
          let node := findNode prob nm
          (nm, calculateSequentialPeak cur node cur.current_memory,
            node.time_cost)
        let explore := min cands.length branchFactor
        dpGreedyLoop prob lookaheadDepth branchFactor fuel
          (executeNode (dpChoose prob lookaheadDepth cur cands explore) prob cur)
    else cur

/-- Mirror of `dpGreedySchedule` (scheduler.cpp:414-467), including the
zero-argument defaults (2 and 8). -/
def dpGreedySchedule (prob : Problem) (lookaheadDepth branchFactor : Nat) :
    ScheduleState :=
  let ld := if lookaheadDepth = 0 then 2 else lookaheadDepth
  let bf := if branchFactor = 0 then 8 else branchFactor
  dpGreedyLoop prob ld bf (prob.nodes.length + 1) {}

/-- A state that never spilled or recomputed: every executed name is
computed, the order is duplicate-free, and every recompute flag is false. -/
def cleanState (s : ScheduleState) : Prop :=
  (∀ x ∈ s.execution_order, x ∈ s.computed) ∧
  s.execution_order.Nodup ∧
  ∀ f ∈ s.recompute_flags, f = false

/-- Predicate that `cleanState` holds of an optional best-so-far. -/
def cleanOpt : Option ScheduleState → Prop
  | none => True
  | some b => cleanState b

/-- C6 counterexample input: node `B` references the undefined input `Z`. -/
def specsC6 : List ParsedNodeSpec :=
  [{ name := "A", run_mem := 0, output_mem := 5, time_cost := 1 },
   { name := "B", run_mem := 0, output_mem := 5, time_cost := 1,
     inputs := ["Z"] }]

/-- The Problem `buildProblem` constructs from the malformed input. -/
def probC6 : Problem := buildProblem 100 specsC6

/-- The invariant behind the C6 amendment: all resident outputs are keyed
by problem nodes, and the dangling-input node `nm` has never executed. -/
def danglingInv (prob : Problem) (nm : String) (s : ScheduleState) : Prop :=
  (∀ kv ∈ s.output_memory, ∃ e ∈ prob.nodes, e.1 = kv.1) ∧
  nm ∉ s.execution_order

/-- Topological order on a name list: every input of the node at position
`i` occurs among the first `i` names. -/
def ordOKList (prob : Problem) (l : List String) : Prop :=
  ∀ (i : Nat) (hi : i < l.length),
    ∀ inp ∈ (findNode prob (l.get ⟨i, hi⟩)).inputs, inp ∈ l.take i

/-- Every resident output's name has been executed. -/
def resInOrder (s : ScheduleState) : Prop :=
  ∀ k, isResident s k = true → k ∈ s.execution_order

/-- Single-node problem for the C4 witness. -/
def probC4w : Problem :=
  buildProblem 100 [{ name := "N", run_mem := 1, output_mem := 1, time_cost := 1 }]

example :
    calculateSequentialPeak { memory_peak := 20, current_memory := 20 }
      (mkNode "B" ["A"] 10 20 1) 20 = 40 := by decide

example : getFreeableInputs (mkNode "B" ["A"] 10 20 1)
    { computed := ["A", "B"] } [("A", ["B"])] = ["A"] := by decide

/-- C2 counterexample: with budget 5 both schedules are infeasible and the
first is strictly faster, yet `isBetterSchedule` does not prefer it — the
both-infeasible branch returns `false` unconditionally, contradicting the
claim that among two infeasible schedules the faster one is better. -/
theorem isBetterSchedule_both_infeasible_counterexample :
    5 < stateC2a.memory_peak ∧ 5 < stateC2b.memory_peak ∧
    stateC2a.total_time < stateC2b.total_time ∧
    isBetterSchedule stateC2a stateC2b 5 = false := by decide

/-- C2 (amended): `isBetterSchedule s1 s2 m` holds exactly when `s1` is
feasible and either `s2` is infeasible, or `s1` is strictly faster, or they
tie in time and `s1` has the strictly smaller peak. In particular two
infeasible schedules are never ordered. -/
theorem isBetterSchedule_characterization (s1 s2 : ScheduleState) (m : Int) :
    isBetterSchedule s1 s2 m = true ↔
      (s1.memory_peak ≤ m ∧
        (m < s2.memory_peak ∨ s1.total_time < s2.total_time ∨
          (s1.total_time = s2.total_time ∧ s1.memory_peak < s2.memory_peak))) := by
  unfold isBetterSchedule
  by_cases h1 : s1.memory_peak ≤ m <;> by_cases h2 : s2.memory_peak ≤ m <;>
    by_cases h3 : s1.total_time = s2.total_time <;>
      simp [h1, h2, h3] <;> omega

/-- Names collected for erasure by one GC pass all fail `gcNeeded`. -/
lemma gcErase_cons_of_ne (ns : List String) (kv : String × Int)
    (l : List (String × Int)) (h : ∀ n ∈ ns, n ≠ kv.1) :
    ∀ cur, gcErase ns cur (kv :: l) =
      ((gcErase ns cur l).1, kv :: (gcErase ns cur l).2) := by
  induction ns generalizing l with
  | nil => intro cur; simp [gcErase]
  | cons n ns ih =>
    intro cur
    have hne : kv.1 ≠ n := fun e => (h n (by simp)) e.symm
    simp only [gcErase, alookup, aerase, if_neg hne]
    cases halo : alookup n l with
    | none => exact ih l (fun x hx => h x (by simp [hx])) cur
    | some v => exact ih (aerase n l) (fun x hx => h x (by simp [hx])) _

/-- One GC pass leaves exactly the still-needed entries of `output_memory`,
in order. -/
lemma gcErase_filter (prob : Problem) (comp : List String) :
    ∀ (l : List (String × Int)) (cur : Int),
      (gcErase ((l.filter fun kv => !(gcNeeded prob comp kv.1)).map (·.1)) cur l).2 =
        l.filter fun kv => gcNeeded prob comp kv.1 := by
  intro l
  induction l with
  | nil => intro cur; simp [gcErase]
  | cons kv rest ih =>
    intro cur
    by_cases hk : gcNeeded prob comp kv.1 = true
    · have hfilter :
          ((kv :: rest).filter fun x => !(gcNeeded prob comp x.1)) =
            rest.filter fun x => !(gcNeeded prob comp x.1) := by
        simp [List.filter_cons, hk]
      rw [hfilter]
      have hnames : ∀ n ∈ ((rest.filter fun x =>
          !(gcNeeded prob comp x.1)).map (·.1)), n ≠ kv.1 := by
        intro n hn heq
        rcases List.mem_map.mp hn with ⟨x, hx, hx1⟩
        have := List.of_mem_filter hx
        rw [hx1, heq, hk] at this
        simp at this
      rw [gcErase_cons_of_ne _ kv rest hnames cur, ih cur]
      simp [List.filter_cons, hk]
    · have hk' : gcNeeded prob comp kv.1 = false := by
        revert hk; cases gcNeeded prob comp kv.1 <;> simp
      have hfilter :
          ((kv :: rest).filter fun x => !(gcNeeded prob comp x.1)) =
            kv :: (rest.filter fun x => !(gcNeeded prob comp x.1)) := by
        simp [List.filter_cons, hk']
      rw [hfilter]
      have hstep : ∀ ns c, gcErase (kv.1 :: ns) c (kv :: rest) =
          gcErase ns (max 0 (c - kv.2)) rest := by
        intro ns c
        simp [gcErase, alookup, aerase]
      rw [List.map_cons, hstep, ih]
      simp [List.filter_cons, hk']

/-- GC leaves `computed` untouched. -/
lemma gc_computed (prob : Problem) (s : ScheduleState) :
    (garbageCollectOutputs prob s).computed = s.computed := rfl

/-- The `output_memory` after one GC pass is the needed-entries filter. -/
lemma gc_output_memory (prob : Problem) (s : ScheduleState) :
    (garbageCollectOutputs prob s).output_memory =
      s.output_memory.filter fun kv => gcNeeded prob s.computed kv.1 :=
  gcErase_filter prob s.computed s.output_memory s.current_memory

/-- A state all of whose resident outputs are still needed is a GC fixpoint. -/
lemma gc_eq_self_of_all_needed (prob : Problem) (t : ScheduleState)
    (h : ∀ kv ∈ t.output_memory, gcNeeded prob t.computed kv.1 = true) :
    garbageCollectOutputs prob t = t := by
  unfold garbageCollectOutputs
  have hnil : (t.output_memory.filter fun kv =>
      !(gcNeeded prob t.computed kv.1)) = [] := by
    rw [List.filter_eq_nil_iff]
    intro kv hkv
    simp [h kv hkv]
  rw [hnil]
  simp [gcErase]

/-- Shared GC-idempotence fact: a second GC pass immediately after a GC pass
changes nothing. -/
lemma gc_idem (prob : Problem) (s : ScheduleState) :
    garbageCollectOutputs prob (garbageCollectOutputs prob s) =
      garbageCollectOutputs prob s := by
  apply gc_eq_self_of_all_needed
  intro kv hkv
  rw [gc_output_memory] at hkv
  have := List.of_mem_filter hkv
  rw [gc_computed]
  exact this

/-- C8: `garbageCollectOutputs` is idempotent — for every Problem and every
ScheduleState, applying it twice in a row yields exactly the state obtained
by applying it once (in particular `current_memory` and `output_memory` are
unchanged by the second pass). -/
theorem garbageCollectOutputs_idempotent (prob : Problem) (s : ScheduleState) :
    garbageCollectOutputs prob (garbageCollectOutputs prob s) =
      garbageCollectOutputs prob s :=
  gc_idem prob s

/-- C3 counterexample: from the empty state the ready list is `[X, Y]` and
`X` has `dynamic_impact = 0 ≤ 0`, so the stated rule selects `N* = X` and
(its sequential peak exceeding the observed peak, and `Y`'s peak not being
strictly below `X`'s) prescribes the result `[X]`; but the implementation's
`node.getPeak() < min_negative_peak` test starts from the sentinel
`INT_MAX = 2147483647`, which a candidate whose peak *equals* `INT_MAX`
never passes, so no `N*` is selected and the ready list comes back
unchanged. -/
theorem pruneReadyListDynamic_sentinel_counterexample :
    getReadyNodeNames probC3 {} = ["X", "Y"] ∧
    calculateDynamicImpact (findNode probC3 "X") {} probC3.dependencies [] ≤ 0 ∧
    pruneReadyListDynamic ["X", "Y"] probC3 {} = ["X", "Y"] ∧
    pruneReadyListDynamicSpec ["X", "Y"] probC3 {} = ["X"] := by decide

/-- The code's sentinel scan and the spec's minimum scan stay in lockstep as
long as every candidate peak is below `INT_MAX`. -/
lemma pruneSelect_equiv (prob : Problem) (state : ScheduleState) :
    ∀ (ready : List String),
      (∀ nm ∈ ready, (findNode prob nm).peak < 2147483647) →
      ∀ (accN : Option String × Int) (accP : Option (String × Int)),
        ((accN = (none, 2147483647) ∧ accP = none) ∨
          (∃ nm p, accN = (some nm, p) ∧ accP = some (nm, p) ∧
            p < 2147483647)) →
        ((pruneSelect prob state ready accN = (none, 2147483647) ∧
            pruneSelectSpec prob state ready accP = none) ∨
          (∃ nm p, pruneSelect prob state ready accN = (some nm, p) ∧
            pruneSelectSpec prob state ready accP = some (nm, p) ∧
            p < 2147483647)) := by
  intro ready
  induction ready with
  | nil =>
    intro _ accN accP hacc
    rcases hacc with ⟨h1, h2⟩ | ⟨nm, p, h1, h2, h3⟩
    · exact Or.inl ⟨by rw [h1]; rfl, by rw [h2]; rfl⟩
    · exact Or.inr ⟨nm, p, by rw [h1]; rfl, by rw [h2]; rfl, h3⟩
  | cons x rest ih =>
    intro hpk accN accP hacc
    have hx : (findNode prob x).peak < 2147483647 := hpk x (by simp)
    have hrest : ∀ nm ∈ rest, (findNode prob nm).peak < 2147483647 :=
      fun nm hnm => hpk nm (by simp [hnm])
    rcases hacc with ⟨h1, h2⟩ | ⟨nm, p, h1, h2, h3⟩
    · subst h1; subst h2
      simp only [pruneSelect, pruneSelectSpec]
      by_cases hd : calculateDynamicImpact (findNode prob x) state
          prob.dependencies state.output_memory ≤ 0
      · rw [if_pos ⟨hd, hx⟩, if_pos hd]
        exact ih hrest _ _ (Or.inr ⟨x, _, rfl, rfl, hx⟩)
      · rw [if_neg (fun h => hd h.1), if_neg hd]
        exact ih hrest _ _ (Or.inl ⟨rfl, rfl⟩)
    · subst h1; subst h2
      simp only [pruneSelect, pruneSelectSpec]
      by_cases hd : calculateDynamicImpact (findNode prob x) state
          prob.dependencies state.output_memory ≤ 0 ∧ (findNode prob x).peak < p
      · rw [if_pos hd, if_pos hd]
        exact ih hrest _ _ (Or.inr ⟨x, _, rfl, rfl, hx⟩)
      · rw [if_neg hd, if_neg hd]
        exact ih hrest _ _ (Or.inr ⟨nm, p, rfl, rfl, h3⟩)

/-- C3 (amended): provided every ready candidate's peak is strictly below
`INT_MAX = 2147483647` (so the sentinel never masks a candidate),
`pruneReadyListDynamic` returns exactly what the stated rule prescribes:
the singleton `{N*}` when `N*`'s sequential peak does not exceed the
observed `memory_peak`, otherwise `N*` plus every candidate with strictly
smaller peak, and the unchanged ready list when no candidate has
`dynamic_impact ≤ 0`. -/
theorem pruneReadyListDynamic_matches_rule (ready : List String)
    (prob : Problem) (state : ScheduleState)
    (h : ∀ nm ∈ ready, (findNode prob nm).peak < 2147483647) :
    pruneReadyListDynamic ready prob state =
      pruneReadyListDynamicSpec ready prob state := by
  unfold pruneReadyListDynamic pruneReadyListDynamicSpec
  rcases pruneSelect_equiv prob state ready h (none, 2147483647) none
      (Or.inl ⟨rfl, rfl⟩) with ⟨h1, h2⟩ | ⟨nm, p, h1, h2, _⟩
  · rw [h1, h2]
  · rw [h1, h2]

/-- Witness for the amended C3 theorem at a concrete input: a two-node
ready list with small peaks, where the rule collapses the frontier to the
memory-freeing candidate. -/
theorem pruneReadyListDynamic_matches_rule_witness :
    (∀ nm ∈ ["X", "Y"],
      (findNode (buildProblem 50
        [{ name := "X", run_mem := 1, output_mem := 0, time_cost := 1 },
         { name := "Y", run_mem := 1, output_mem := 5, time_cost := 1 }]) nm).peak <
        2147483647) ∧
    pruneReadyListDynamic ["X", "Y"]
        (buildProblem 50
          [{ name := "X", run_mem := 1, output_mem := 0, time_cost := 1 },
           { name := "Y", run_mem := 1, output_mem := 5, time_cost := 1 }]) {} =
      pruneReadyListDynamicSpec ["X", "Y"]
        (buildProblem 50
          [{ name := "X", run_mem := 1, output_mem := 0, time_cost := 1 },
           { name := "Y", run_mem := 1, output_mem := 5, time_cost := 1 }]) {} :=
  ⟨by decide, pruneReadyListDynamic_matches_rule _ _ _ (by decide)⟩

/-- C5 counterexample: on the scenario-1 chain the scheduler's
`memory_peak` is 40, not the claimed 30 — `calculateSequentialPeak` charges
`max(run_mem, output_mem) + current_memory`, so executing `B` with `A`'s 20
still resident costs `20 + 20 = 40`. -/
theorem schedule_chain_peak_counterexample :
    (schedule probC5).memory_peak = 40 ∧ (schedule probC5).memory_peak ≠ 30 := by
  decide

/-- C5 (amended): on the scenario-1 chain under budget 100 the scheduler
returns execution order `[A, B, C]`, no recomputation, total time 3, and
memory peak 40 (per the code's own sequential-peak formula). -/
theorem schedule_chain_result :
    (schedule probC5).execution_order = ["A", "B", "C"] ∧
    (schedule probC5).recompute_flags = [false, false, false] ∧
    (schedule probC5).total_time = 3 ∧
    (schedule probC5).memory_peak = 40 := by decide

/-- C7 counterexample: the bounded DFS (`dfsScheduleLimited`, as invoked by
`scheduleWithLimits`) performs no garbage collection — `G`'s dead output
stays resident while `H` runs, giving peak `30 + 20 = 50`; a bounded DFS
that garbage-collects on entering every state (the spec's step 2) returns
peak 30. So GC does not run on every recursive call of the bounded DFS. -/
theorem dfsScheduleLimited_no_gc_counterexample :
    (scheduleWithLimits probC7 10).memory_peak = 50 ∧
    (scheduleWithLimitsSpec probC7 10).memory_peak = 30 := by decide

/-- C7 (amended): the *unbounded* DFS (`dfsSchedule`, invoked by
`schedule`) garbage-collects on entering every incomplete state before
computing the ready set — so garbage-collecting an incomplete state before
handing it to `dfsSchedule` changes nothing — while `dfsScheduleLimited`
(invoked by `scheduleWithLimits` and `scheduleWithDebug`) performs no GC at
all, as the counterexample shows. -/
theorem dfsSchedule_gc_on_entry (prob : Problem) (fuel : Nat)
    (s : ScheduleState) (best : Option ScheduleState)
    (h : s.computed.length ≠ prob.nodes.length) :
    dfsSchedule prob fuel (garbageCollectOutputs prob s) best =
      dfsSchedule prob fuel s best := by
  cases fuel with
  | zero => rfl
  | succ n =>
    simp only [dfsSchedule, gc_computed, gc_idem, if_neg h]

/-- Witness for the amended C7 theorem: an incomplete one-node-executed
state of the C7 problem, where pre-collecting garbage is indeed a no-op for
the unbounded DFS. -/
theorem dfsSchedule_gc_on_entry_witness :
    (executeNode "G" probC7 {}).computed.length ≠ probC7.nodes.length ∧
    dfsSchedule probC7 3
        (garbageCollectOutputs probC7 (executeNode "G" probC7 {})) none =
      dfsSchedule probC7 3 (executeNode "G" probC7 {}) none :=
  ⟨by decide, dfsSchedule_gc_on_entry probC7 3 (executeNode "G" probC7 {}) none
    (by decide)⟩

/-- C1: the accounting-consistency invariant fails on a reachable state.
From the empty state the bounded DFS executes `A` and `B`, then (all
candidates exceeding the budget) spills via `trySpillBest`, which subtracts
the consumer-free output `A`'s size from `current_memory` *without erasing
its entry* (the erase its comment announces never happens) and then evicts
`B`; the resulting state — on which the DFS recurses — has
`current_memory = 0` but `sum(output_memory.values) = 10`. -/
theorem dfs_accounting_invariant_violated :
    ∃ s, ReachDFS probC1 s ∧
      s.current_memory ≠ (s.output_memory.map (·.2)).sum := by
  refine ⟨stateC1bad, ?_, by decide⟩
  have h0 : ReachDFS probC1 {} := ReachDFS.init
  have h1 : ReachDFS probC1 (executeNode "A" probC1 {}) :=
    ReachDFS.exec {} "A" h0 (by decide) (by decide) (by decide) (by decide)
      (by decide)
  have h2 : ReachDFS probC1 stateC1 :=
    ReachDFS.exec (executeNode "A" probC1 {}) "B" h1 (by decide) (by decide)
      (by decide) (by decide) (by decide)
  exact ReachDFS.spill stateC1 stateC1bad h2 (by decide) (by decide)
    (by decide) (by decide)

/-- Membership in `setInsert`. -/
lemma mem_setInsert (x y : String) (l : List String) :
    x ∈ setInsert y l ↔ x = y ∨ x ∈ l := by
  unfold setInsert
  by_cases h : y ∈ l
  · rw [if_pos h]
    constructor
    · exact fun hx => Or.inr hx
    · rintro (hx | hx)
      · exact hx ▸ h
      · exact hx
  · rw [if_neg h]
    simp only [List.mem_append, List.mem_singleton]
    tauto

/-- Membership via `List.contains` on strings agrees with membership. -/
lemma contains_iff_mem (l : List String) (x : String) :
    l.contains x = true ↔ x ∈ l := by
  induction l with
  | nil => simp
  | cons y rest ih =>
    simp only [List.contains_cons, Bool.or_eq_true, beq_iff_eq, List.mem_cons, ih]

/-- A successful `alookup` returns an actual entry of the list. -/
lemma alookup_mem {α : Type} (k : String) (v : α) :
    ∀ l : List (String × α), alookup k l = some v → (k, v) ∈ l := by
  intro l
  induction l with
  | nil => intro h; simp [alookup] at h
  | cons kv rest ih =>
    intro h
    obtain ⟨a, b⟩ := kv
    by_cases hk : a = k
    · simp only [alookup, if_pos hk] at h
      injection h with h2
      rw [← hk, ← h2]
      exact List.mem_cons_self (a, b) rest
    · simp only [alookup, if_neg hk] at h
      exact List.mem_cons_of_mem (a, b) (ih h)

/-- Lookup `alookup` succeeds exactly on keys of the list. -/
lemma alookup_isSome_iff {α : Type} (k : String) (l : List (String × α)) :
    (alookup k l).isSome = true ↔ ∃ kv ∈ l, kv.1 = k := by
  induction l with
  | nil => simp [alookup]
  | cons kv rest ih =>
    by_cases hk : kv.1 = k
    · simp only [alookup, if_pos hk, Option.isSome_some, true_iff]
      exact ⟨kv, List.mem_cons_self kv rest, hk⟩
    · simp only [alookup, if_neg hk, ih]
      constructor
      · rintro ⟨e, he, hek⟩
        exact ⟨e, List.mem_cons_of_mem kv he, hek⟩
      · rintro ⟨e, he, hek⟩
        rcases List.mem_cons.mp he with h | h
        · subst h; exact absurd hek hk
        · exact ⟨e, h, hek⟩

/-- In a list with distinct keys, `alookup` at an entry's key returns that
entry's value. -/
lemma alookup_of_mem_nodup {α : Type} (kv : String × α) :
    ∀ l : List (String × α), kv ∈ l → (l.map Prod.fst).Nodup →
      alookup kv.1 l = some kv.2 := by
  intro l
  induction l with
  | nil => intro h; simp at h
  | cons e rest ih =>
    intro hmem hnd
    rcases List.mem_cons.mp hmem with h | h
    · subst h; simp [alookup]
    · have he : e.1 ≠ kv.1 := by
        intro heq
        have : kv.1 ∈ rest.map Prod.fst := List.mem_map_of_mem Prod.fst h
        rw [List.map_cons, List.nodup_cons] at hnd
        exact hnd.1 (heq ▸ this)
      simp only [alookup, if_neg he]
      exact ih h ((List.map_cons Prod.fst e rest ▸ hnd).of_cons)

/-- Erasing can only remove keys. -/
lemma alookup_aerase_isSome {α : Type} (k k' : String) :
    ∀ l : List (String × α), (alookup k (aerase k' l)).isSome = true →
      (alookup k l).isSome = true := by
  intro l
  induction l with
  | nil => simp [aerase]
  | cons kv rest ih =>
    intro h
    by_cases hk' : kv.1 = k'
    · simp only [aerase, if_pos hk'] at h
      by_cases hk : kv.1 = k
      · simp [alookup, hk]
      · simp only [alookup, if_neg hk]
        rcases Option.isSome_iff_exists.mp h with ⟨v, hv⟩
        have := alookup_mem k v rest hv
        rw [alookup_isSome_iff]
        exact ⟨(k, v), this, rfl⟩
    · simp only [aerase, if_neg hk'] at h
      by_cases hk : kv.1 = k
      · simp [alookup, hk]
      · simp only [alookup, if_neg hk] at h ⊢
        exact ih h

/-- A key present after `aupdate` is the updated key or was present before. -/
lemma alookup_aupdate_isSome {α : Type} (k k' : String) (v : α) :
    ∀ l : List (String × α), (alookup k (aupdate k' v l)).isSome = true →
      k = k' ∨ (alookup k l).isSome = true := by
  intro l
  induction l with
  | nil =>
    intro h
    simp only [aupdate, alookup] at h
    by_cases hk : k' = k
    · exact Or.inl hk.symm
    · simp [if_neg hk] at h
  | cons kv rest ih =>
    intro h
    by_cases hk' : kv.1 = k'
    · simp only [aupdate, if_pos hk'] at h
      by_cases hk : k' = k
      · exact Or.inl hk.symm
      · simp only [alookup, if_neg hk] at h
        right
        simp only [alookup, if_neg (hk' ▸ hk)]
        exact h
    · simp only [aupdate, if_neg hk'] at h
      by_cases hk : kv.1 = k
      · right; simp [alookup, hk]
      · simp only [alookup, if_neg hk] at h ⊢
        exact ih h

/-- The freeing fold of `executeNode` only erases entries. -/
lemma freeInputs_isSome (k : String) :
    ∀ (fs : List String) (acc : Int × List (String × Int)),
      (alookup k (freeInputs fs acc).2).isSome = true →
      (alookup k acc.2).isSome = true := by
  intro fs
  induction fs with
  | nil => intro acc h; exact h
  | cons f rest ih =>
    intro acc h
    simp only [freeInputs, List.foldl_cons] at h
    cases hlo : alookup f acc.2 with
    | none =>
      rw [hlo] at h
      exact ih acc h
    | some v =>
      rw [hlo] at h
      have := ih _ h
      exact alookup_aerase_isSome k f acc.2 this

/-- Residency after `executeNode`: the executed node's own output, or
something that was already resident. -/
lemma executeNode_resident (prob : Problem) (s : ScheduleState)
    (nm k : String) (h : isResident (executeNode nm prob s) k = true) :
    k = (findNode prob nm).name ∨ isResident s k = true := by
  simp only [isResident, executeNode] at h ⊢
  rcases alookup_aupdate_isSome k (findNode prob nm).name
      (findNode prob nm).output_mem _ h with hk | hk
  · exact Or.inl hk
  · exact Or.inr (freeInputs_isSome k _ _ hk)

/-- Ready nodes come from entries of `prob.nodes`: uncomputed, all inputs
resident. -/
lemma mem_getReadyNodeNames (prob : Problem) (s : ScheduleState) (nm : String)
    (h : nm ∈ getReadyNodeNames prob s) :
    ∃ kv ∈ prob.nodes, kv.1 = nm ∧ s.computed.contains nm = false ∧
      ∀ inp ∈ kv.2.inputs, isResident s inp = true := by
  unfold getReadyNodeNames at h
  rcases List.mem_map.mp h with ⟨kv, hkv, hnm⟩
  have hp := List.of_mem_filter hkv
  rcases Bool.and_eq_true_iff.mp hp with ⟨h1, h2⟩
  refine ⟨kv, List.mem_of_mem_filter hkv, hnm, ?_, ?_⟩
  · rw [← hnm]
    revert h1
    cases s.computed.contains kv.1 <;> simp
  · intro inp hinp
    exact List.all_eq_true.mp h2 inp hinp

/-- Recompute candidates come from entries of `prob.nodes`: output absent,
some consumer uncomputed, all inputs resident. -/
lemma mem_getRecomputeCandidates (prob : Problem) (s : ScheduleState)
    (nm : String) (h : nm ∈ getRecomputeCandidates prob s) :
    ∃ kv ∈ prob.nodes, kv.1 = nm ∧
      ∀ inp ∈ kv.2.inputs, isResident s inp = true := by
  unfold getRecomputeCandidates at h
  rcases List.mem_map.mp h with ⟨kv, hkv, hnm⟩
  have hp := List.of_mem_filter hkv
  rcases Bool.and_eq_true_iff.mp hp with ⟨h12, h3⟩
  refine ⟨kv, List.mem_of_mem_filter hkv, hnm, ?_⟩
  intro inp hinp
  exact List.all_eq_true.mp h3 inp hinp

/-- The selection scan only ever returns a name from its input list (or the
accumulator). -/
lemma pruneSelect_mem (prob : Problem) (s : ScheduleState) (nm : String) :
    ∀ (ready : List String) (acc : Option String × Int),
      (pruneSelect prob s ready acc).1 = some nm →
      acc.1 = some nm ∨ nm ∈ ready := by
  intro ready
  induction ready with
  | nil => intro acc h; exact Or.inl h
  | cons x rest ih =>
    intro acc h
    simp only [pruneSelect] at h
    by_cases hc : calculateDynamicImpact (findNode prob x) s prob.dependencies
        s.output_memory ≤ 0 ∧ (findNode prob x).peak < acc.2
    · rw [if_pos hc] at h
      rcases ih _ h with h' | h'
      · simp only at h'
        cases h'
        exact Or.inr (by simp)
      · exact Or.inr (List.mem_cons_of_mem x h')
    · rw [if_neg hc] at h
      rcases ih _ h with h' | h'
      · exact Or.inl h'
      · exact Or.inr (List.mem_cons_of_mem x h')

/-- Pruning returns a sublist (as a set) of the ready list. -/
lemma mem_pruneReadyListDynamic (ready : List String) (prob : Problem)
    (s : ScheduleState) (nm : String)
    (h : nm ∈ pruneReadyListDynamic ready prob s) : nm ∈ ready := by
  simp only [pruneReadyListDynamic] at h
  cases hsel : (pruneSelect prob s ready (none, 2147483647)).1 with
  | none => rw [hsel] at h; exact h
  | some best =>
    rw [hsel] at h
    have hbest : best ∈ ready := by
      rcases pruneSelect_mem prob s best ready (none, 2147483647) hsel with h' | h'
      · simp at h'
      · exact h'
    dsimp only at h
    split at h
    · exact (List.mem_singleton.mp h) ▸ hbest
    · split at h
      · exact h
      · exact List.mem_of_mem_filter h

/-- Executing a node raises `memory_peak` exactly to the sequential peak. -/
lemma executeNode_memory_peak (nm : String) (prob : Problem) (s : ScheduleState) :
    (executeNode nm prob s).memory_peak =
      max s.memory_peak
        (calculateSequentialPeak s (findNode prob nm) s.current_memory) := rfl

/-- The greedy selection only ever settles on candidates whose sequential
peak fits the budget. -/
lemma greedySelect_budget (prob : Problem) (cur : ScheduleState) :
    ∀ (ready : List String) (acc : GreedyAcc),
      (acc.best = "" ∨
        calculateSequentialPeak cur (findNode prob acc.best) cur.current_memory ≤
          prob.total_memory) →
      ((greedySelect prob cur ready acc).best = "" ∨
        calculateSequentialPeak cur
            (findNode prob (greedySelect prob cur ready acc).best)
            cur.current_memory ≤ prob.total_memory) := by
  intro ready
  induction ready with
  | nil => intro acc h; exact h
  | cons nm rest ih =>
    intro acc h
    simp only [greedySelect]
    by_cases hb : prob.total_memory <
        calculateSequentialPeak cur (findNode prob nm) cur.current_memory
    · rw [if_pos hb]; exact ih acc h
    · rw [if_neg hb]
      by_cases hu : calculateSequentialPeak cur (findNode prob nm)
            cur.current_memory < acc.bestPredPeak ∨
          (calculateSequentialPeak cur (findNode prob nm) cur.current_memory =
              acc.bestPredPeak ∧ (findNode prob nm).time_cost < acc.bestTime)
      · rw [if_pos hu]
        exact ih _ (Or.inr (le_of_not_lt hb))
      · rw [if_neg hu]; exact ih acc h

/-- The heuristic selection only ever settles on candidates whose
sequential peak fits the budget. -/
lemma heuristicSelect_budget (prob : Problem) (cur : ScheduleState) :
    ∀ (ready : List String) (acc : HeurAcc),
      (acc.best = "" ∨
        calculateSequentialPeak cur (findNode prob acc.best) cur.current_memory ≤
          prob.total_memory) →
      ((heuristicSelect prob cur ready acc).best = "" ∨
        calculateSequentialPeak cur
            (findNode prob (heuristicSelect prob cur ready acc).best)
            cur.current_memory ≤ prob.total_memory) := by
  intro ready
  induction ready with
  | nil => intro acc h; exact h
  | cons nm rest ih =>
    intro acc h
    simp only [heuristicSelect]
    by_cases hb : prob.total_memory <
        calculateSequentialPeak cur (findNode prob nm) cur.current_memory
    · rw [if_pos hb]; exact ih acc h
    · rw [if_neg hb]
      by_cases hneg : calculateDynamicImpact (findNode prob nm) cur
          prob.dependencies cur.output_memory ≤ 0
      · rw [if_pos hneg]
        by_cases hp : ¬acc.pickedNegative ∨
            (findNode prob nm).peak < (findNode prob acc.best).peak
        · rw [if_pos hp]
          exact ih _ (Or.inr (le_of_not_lt hb))
        · rw [if_neg hp]; exact ih acc h
      · rw [if_neg hneg]
        by_cases hpk : acc.pickedNegative = true
        · rw [if_pos hpk]; exact ih acc h
        · rw [if_neg hpk]
          by_cases hu : calculateSequentialPeak cur (findNode prob nm)
                cur.current_memory < acc.bestPredPeak ∨
              (calculateSequentialPeak cur (findNode prob nm)
                  cur.current_memory = acc.bestPredPeak ∧
                (findNode prob nm).time_cost < acc.bestTime)
          · rw [if_pos hu]
            exact ih _ (Or.inr (le_of_not_lt hb))
          · rw [if_neg hu]; exact ih acc h

/-- The greedy loop never raises `memory_peak` above the budget. -/
lemma greedyLoop_budget (prob : Problem) :
    ∀ (fuel : Nat) (cur : ScheduleState),
      cur.memory_peak ≤ prob.total_memory →
      (greedyLoop prob fuel cur).memory_peak ≤ prob.total_memory := by
  intro fuel
  induction fuel with
  | zero => intro cur h; exact h
  | succ n ih =>
    intro cur h
    simp only [greedyLoop]
    by_cases hc : cur.computed.length < prob.nodes.length
    · rw [if_pos hc]
      by_cases hr : (getReadyNodeNames prob cur).isEmpty
      · rw [if_pos hr]; exact h
      · rw [if_neg hr]
        by_cases hsel : (greedySelect prob cur (getReadyNodeNames prob cur)
            { best := "", bestPredPeak := 2147483647,
              bestTime := 2147483647 }).best = ""
        · rw [if_pos hsel]; exact h
        · rw [if_neg hsel]
          apply ih
          rw [executeNode_memory_peak]
          rcases greedySelect_budget prob cur (getReadyNodeNames prob cur)
              { best := "", bestPredPeak := 2147483647, bestTime := 2147483647 }
              (Or.inl rfl) with h' | h'
          · exact absurd h' hsel
          · exact max_le h h'
    · rw [if_neg hc]; exact h

/-- The heuristic loop never raises `memory_peak` above the budget. -/
lemma heuristicLoop_budget (prob : Problem) :
    ∀ (fuel : Nat) (cur : ScheduleState),
      cur.memory_peak ≤ prob.total_memory →
      (heuristicLoop prob fuel cur).memory_peak ≤ prob.total_memory := by
  intro fuel
  induction fuel with
  | zero => intro cur h; exact h
  | succ n ih =>
    intro cur h
    simp only [heuristicLoop]
    by_cases hc : cur.computed.length < prob.nodes.length
    · rw [if_pos hc]
      by_cases hr : (getReadyNodeNames prob cur).isEmpty
      · rw [if_pos hr]; exact h
      · rw [if_neg hr]
        by_cases hsel : (heuristicSelect prob cur (getReadyNodeNames prob cur)
            { best := "", bestPredPeak := 2147483647, bestTime := 2147483647,
              pickedNegative := false }).best = ""
        · rw [if_pos hsel]; exact h
        · rw [if_neg hsel]
          apply ih
          rw [executeNode_memory_peak]
          rcases heuristicSelect_budget prob cur (getReadyNodeNames prob cur)
              { best := "", bestPredPeak := 2147483647, bestTime := 2147483647,
                pickedNegative := false } (Or.inl rfl) with h' | h'
          · exact absurd h' hsel
          · exact max_le h h'
    · rw [if_neg hc]; exact h

/-- C9: for every Problem with non-negative budget, the states returned by
`greedySchedule` and `heuristicSchedule` have `memory_peak ≤ total_memory`
— both execute only candidates whose predicted sequential peak fits, so a
budget shortfall shows up as an incomplete order, never an over-budget
peak. -/
theorem fallback_schedulers_respect_budget (prob : Problem)
    (h : 0 ≤ prob.total_memory) :
    (greedySchedule prob).memory_peak ≤ prob.total_memory ∧
    (heuristicSchedule prob).memory_peak ≤ prob.total_memory :=
  ⟨greedyLoop_budget prob _ {} h, heuristicLoop_budget prob _ {} h⟩

/-- Witness for C9 on the scenario-1 chain problem (budget 100 ≥ 0). -/
theorem fallback_schedulers_respect_budget_witness :
    0 ≤ probC5.total_memory ∧
    ((greedySchedule probC5).memory_peak ≤ probC5.total_memory ∧
      (heuristicSchedule probC5).memory_peak ≤ probC5.total_memory) :=
  ⟨by decide, fallback_schedulers_respect_budget probC5 (by decide)⟩

/-- With name-consistent node entries (as `buildProblem` produces),
`findNode` returns a node whose `name` is the requested key — also when the
key is absent, thanks to the default node. -/
lemma findNode_name (prob : Problem)
    (hn : ∀ kv ∈ prob.nodes, kv.2.name = kv.1) (nm : String) :
    (findNode prob nm).name = nm := by
  unfold findNode
  cases h : alookup nm prob.nodes with
  | none => rfl
  | some v => exact hn (nm, v) (alookup_mem nm v prob.nodes h)

lemma executeNode_order (nm : String) (prob : Problem) (s : ScheduleState) :
    (executeNode nm prob s).execution_order =
      s.execution_order ++ [(findNode prob nm).name] := rfl

lemma executeNode_flags (nm : String) (prob : Problem) (s : ScheduleState) :
    (executeNode nm prob s).recompute_flags =
      s.recompute_flags ++ [s.computed.contains (findNode prob nm).name] := rfl

lemma executeNode_computed (nm : String) (prob : Problem) (s : ScheduleState) :
    (executeNode nm prob s).computed =
      setInsert (findNode prob nm).name s.computed := rfl

/-- Appending a fresh element preserves duplicate-freedom. -/
lemma nodup_append_singleton (l : List String) (x : String)
    (h1 : l.Nodup) (h2 : x ∉ l) : (l ++ [x]).Nodup := by
  rw [List.nodup_append]
  exact ⟨h1, List.nodup_singleton x,
    fun a ha hax => h2 ((List.mem_singleton.mp hax) ▸ ha)⟩

/-- Executing a not-yet-computed node of a name-consistent problem keeps a
state clean: the new order entry is fresh and its recompute flag is false. -/
lemma exec_clean (prob : Problem)
    (hn : ∀ kv ∈ prob.nodes, kv.2.name = kv.1)
    (s : ScheduleState) (nm : String)
    (hnc : s.computed.contains nm = false)
    (h : cleanState s) : cleanState (executeNode nm prob s) := by
  have hname : (findNode prob nm).name = nm := findNode_name prob hn nm
  have hmem : nm ∉ s.execution_order := by
    intro hm
    have hc := (contains_iff_mem s.computed nm).mpr (h.1 nm hm)
    rw [hnc] at hc
    exact Bool.noConfusion hc
  refine ⟨?_, ?_, ?_⟩
  · intro x hx
    rw [executeNode_order, hname] at hx
    rw [executeNode_computed, hname]
    rcases List.mem_append.mp hx with hx | hx
    · exact (mem_setInsert x nm s.computed).mpr (Or.inr (h.1 x hx))
    · exact (mem_setInsert x nm s.computed).mpr (Or.inl (List.mem_singleton.mp hx))
  · rw [executeNode_order, hname]
    exact nodup_append_singleton _ nm h.2.1 hmem
  · intro f hf
    rw [executeNode_flags, hname] at hf
    rcases List.mem_append.mp hf with hf | hf
    · exact h.2.2 f hf
    · rw [List.mem_singleton.mp hf]
      exact hnc

/-- Insertion keeps list membership. -/
lemma mem_isortInsert {α : Type} (lt : α → α → Bool) (x y : α) :
    ∀ l : List α, y ∈ isortInsert lt x l → y = x ∨ y ∈ l := by
  intro l
  induction l with
  | nil => intro h; simp [isortInsert] at h; exact Or.inl h
  | cons z rest ih =>
    intro h
    simp only [isortInsert] at h
    by_cases hc : lt x z
    · rw [if_pos hc] at h
      rcases List.mem_cons.mp h with h | h
      · exact Or.inl h
      · exact Or.inr h
    · rw [if_neg hc] at h
      rcases List.mem_cons.mp h with h | h
      · exact Or.inr (h ▸ List.mem_cons_self z rest)
      · rcases ih h with h' | h'
        · exact Or.inl h'
        · exact Or.inr (List.mem_cons_of_mem z h')

/-- Sorting keeps list membership. -/
lemma mem_isortBy {α : Type} (lt : α → α → Bool) (y : α) :
    ∀ l : List α, y ∈ isortBy lt l → y ∈ l := by
  intro l
  induction l with
  | nil => intro h; simp [isortBy] at h
  | cons z rest ih =>
    intro h
    simp only [isortBy] at h
    rcases mem_isortInsert lt z y _ h with h' | h'
    · exact h' ▸ List.mem_cons_self z rest
    · exact List.mem_cons_of_mem z (ih h')

lemma isortInsert_length {α : Type} (lt : α → α → Bool) (x : α) :
    ∀ l : List α, (isortInsert lt x l).length = l.length + 1 := by
  intro l
  induction l with
  | nil => rfl
  | cons z rest ih =>
    simp only [isortInsert]
    by_cases hc : lt x z
    · rw [if_pos hc]; rfl
    · rw [if_neg hc]
      simp [ih]

lemma isortBy_length {α : Type} (lt : α → α → Bool) :
    ∀ l : List α, (isortBy lt l).length = l.length := by
  intro l
  induction l with
  | nil => rfl
  | cons z rest ih =>
    simp only [isortBy, isortInsert_length, ih, List.length_cons]

/-- The default-headed head of a non-empty list is a member. -/
lemma headD_mem {α : Type} (l : List α) (d : α) (h : l ≠ []) : l.headD d ∈ l := by
  cases l with
  | nil => exact absurd rfl h
  | cons x rest => exact List.mem_cons_self x rest

/-- The greedy selection returns the accumulator's pick or a list member. -/
lemma greedySelect_mem (prob : Problem) (cur : ScheduleState) :
    ∀ (ready : List String) (acc : GreedyAcc),
      (greedySelect prob cur ready acc).best = acc.best ∨
        (greedySelect prob cur ready acc).best ∈ ready := by
  intro ready
  induction ready with
  | nil => intro acc; exact Or.inl rfl
  | cons nm rest ih =>
    intro acc
    simp only [greedySelect]
    by_cases hb : prob.total_memory <
        calculateSequentialPeak cur (findNode prob nm) cur.current_memory
    · rw [if_pos hb]
      rcases ih acc with h | h
      · exact Or.inl h
      · exact Or.inr (List.mem_cons_of_mem nm h)
    · rw [if_neg hb]
      by_cases hu : calculateSequentialPeak cur (findNode prob nm)
            cur.current_memory < acc.bestPredPeak ∨
          (calculateSequentialPeak cur (findNode prob nm) cur.current_memory =
              acc.bestPredPeak ∧ (findNode prob nm).time_cost < acc.bestTime)
      · rw [if_pos hu]
        rcases ih ⟨nm, calculateSequentialPeak cur (findNode prob nm)
            cur.current_memory, (findNode prob nm).time_cost⟩ with h | h
        · exact Or.inr (h ▸ List.mem_cons_self nm rest)
        · exact Or.inr (List.mem_cons_of_mem nm h)
      · rw [if_neg hu]
        rcases ih acc with h | h
        · exact Or.inl h
        · exact Or.inr (List.mem_cons_of_mem nm h)

/-- The heuristic selection returns the accumulator's pick or a list
member. -/
lemma heuristicSelect_mem (prob : Problem) (cur : ScheduleState) :
    ∀ (ready : List String) (acc : HeurAcc),
      (heuristicSelect prob cur ready acc).best = acc.best ∨
        (heuristicSelect prob cur ready acc).best ∈ ready := by
  intro ready
  induction ready with
  | nil => intro acc; exact Or.inl rfl
  | cons nm rest ih =>
    intro acc
    simp only [heuristicSelect]
    by_cases hb : prob.total_memory <
        calculateSequentialPeak cur (findNode prob nm) cur.current_memory
    · rw [if_pos hb]
      rcases ih acc with h | h
      · exact Or.inl h
      · exact Or.inr (List.mem_cons_of_mem nm h)
    · rw [if_neg hb]
      by_cases hneg : calculateDynamicImpact (findNode prob nm) cur
          prob.dependencies cur.output_memory ≤ 0
      · rw [if_pos hneg]
        by_cases hp : ¬acc.pickedNegative ∨
            (findNode prob nm).peak < (findNode prob acc.best).peak
        · rw [if_pos hp]
          rcases ih ⟨nm, acc.bestPredPeak, acc.bestTime, true⟩ with h | h
          · exact Or.inr (h ▸ List.mem_cons_self nm rest)
          · exact Or.inr (List.mem_cons_of_mem nm h)
        · rw [if_neg hp]
          rcases ih acc with h | h
          · exact Or.inl h
          · exact Or.inr (List.mem_cons_of_mem nm h)
      · rw [if_neg hneg]
        by_cases hpk : acc.pickedNegative = true
        · rw [if_pos hpk]
          rcases ih acc with h | h
          · exact Or.inl h
          · exact Or.inr (List.mem_cons_of_mem nm h)
        · rw [if_neg hpk]
          by_cases hu : calculateSequentialPeak cur (findNode prob nm)
                cur.current_memory < acc.bestPredPeak ∨
              (calculateSequentialPeak cur (findNode prob nm)
                  cur.current_memory = acc.bestPredPeak ∧
                (findNode prob nm).time_cost < acc.bestTime)
          · rw [if_pos hu]
            rcases ih ⟨nm, calculateSequentialPeak cur (findNode prob nm)
                cur.current_memory, (findNode prob nm).time_cost, false⟩ with h | h
            · exact Or.inr (h ▸ List.mem_cons_self nm rest)
            · exact Or.inr (List.mem_cons_of_mem nm h)
          · rw [if_neg hu]
            rcases ih acc with h | h
            · exact Or.inl h
            · exact Or.inr (List.mem_cons_of_mem nm h)

/-- The empty state is clean. -/
lemma cleanState_empty : cleanState {} := by
  refine ⟨?_, ?_, ?_⟩ <;> simp [cleanState]

/-- Updating the best-so-far with a clean state keeps it clean. -/
lemma updateBest_clean (cur : ScheduleState) (best : Option ScheduleState)
    (total : Int) (h1 : cleanState cur) (h2 : cleanOpt best) :
    cleanOpt (updateBest cur best total) := by
  cases best with
  | none => exact h1
  | some b =>
    simp only [updateBest]
    by_cases hb : isBetterSchedule cur b total = true
    · rw [if_pos hb]; exact h1
    · rw [if_neg hb]; exact h2

/-- The greedy loop preserves cleanliness. -/
lemma greedyLoop_clean (prob : Problem)
    (hn : ∀ kv ∈ prob.nodes, kv.2.name = kv.1) :
    ∀ (fuel : Nat) (cur : ScheduleState), cleanState cur →
      cleanState (greedyLoop prob fuel cur) := by
  intro fuel
  induction fuel with
  | zero => intro cur h; exact h
  | succ n ih =>
    intro cur h
    simp only [greedyLoop]
    by_cases hc : cur.computed.length < prob.nodes.length
    · rw [if_pos hc]
      by_cases hr : (getReadyNodeNames prob cur).isEmpty
      · rw [if_pos hr]; exact h
      · rw [if_neg hr]
        by_cases hsel : (greedySelect prob cur (getReadyNodeNames prob cur)
            ⟨"", 2147483647, 2147483647⟩).best = ""
        · rw [if_pos hsel]; exact h
        · rw [if_neg hsel]
          apply ih
          rcases greedySelect_mem prob cur (getReadyNodeNames prob cur)
              ⟨"", 2147483647, 2147483647⟩ with h' | h'
          · exact absurd h' hsel
          · rcases mem_getReadyNodeNames prob cur _ h' with ⟨kv, _, _, hcont, _⟩
            exact exec_clean prob hn cur _ hcont h
    · rw [if_neg hc]; exact h

/-- The heuristic loop preserves cleanliness. -/
lemma heuristicLoop_clean (prob : Problem)
    (hn : ∀ kv ∈ prob.nodes, kv.2.name = kv.1) :
    ∀ (fuel : Nat) (cur : ScheduleState), cleanState cur →
      cleanState (heuristicLoop prob fuel cur) := by
  intro fuel
  induction fuel with
  | zero => intro cur h; exact h
  | succ n ih =>
    intro cur h
    simp only [heuristicLoop]
    by_cases hc : cur.computed.length < prob.nodes.length
    · rw [if_pos hc]
      by_cases hr : (getReadyNodeNames prob cur).isEmpty
      · rw [if_pos hr]; exact h
      · rw [if_neg hr]
        by_cases hsel : (heuristicSelect prob cur (getReadyNodeNames prob cur)
            ⟨"", 2147483647, 2147483647, false⟩).best = ""
        · rw [if_pos hsel]; exact h
        · rw [if_neg hsel]
          apply ih
          rcases heuristicSelect_mem prob cur (getReadyNodeNames prob cur)
              ⟨"", 2147483647, 2147483647, false⟩ with h' | h'
          · exact absurd h' hsel
          · rcases mem_getReadyNodeNames prob cur _ h' with ⟨kv, _, _, hcont, _⟩
            exact exec_clean prob hn cur _ hcont h
    · rw [if_neg hc]; exact h

/-- Every beam candidate is an uncomputed ready node. -/
lemma mem_beamCands (prob : Problem) (cur : ScheduleState)
    (c : String × Int × Int) (h : c ∈ beamCands prob cur) :
    cur.computed.contains c.1 = false := by
  unfold beamCands at h
  have h2 := mem_isortBy candLess c _ h
  rcases List.mem_filterMap.mp h2 with ⟨nm, hnm, hf⟩
  dsimp only at hf
  split at hf
  · exact Option.noConfusion hf
  · injection hf with hf
    rcases mem_getReadyNodeNames prob cur nm hnm with ⟨kv, _, _, hcont, _⟩
    rw [← hf]
    exact hcont

/-- The inner push fold of the beam keeps every queued state clean and the
best-so-far clean. -/
lemma beamPushFold_clean (prob : Problem) (me : Nat) (cur : ScheduleState)
    (hn : ∀ kv ∈ prob.nodes, kv.2.name = kv.1) (hcur : cleanState cur) :
    ∀ (l : List (String × Int × Int))
      (acc : List ScheduleState × Nat × Option ScheduleState),
      (∀ st ∈ acc.1, cleanState st) → cleanOpt acc.2.2 →
      (∀ c ∈ l, cur.computed.contains c.1 = false) →
      (∀ st ∈ (l.foldl (beamPush prob me cur) acc).1, cleanState st) ∧
        cleanOpt (l.foldl (beamPush prob me cur) acc).2.2 := by
  intro l
  induction l with
  | nil => intro acc h1 h2 _; exact ⟨h1, h2⟩
  | cons c rest ih =>
    intro acc h1 h2 hl
    simp only [List.foldl_cons]
    apply ih
    · intro st hst
      simp only [beamPush] at hst
      by_cases hb : acc.2.1 < me
      · rw [if_pos hb] at hst
        rcases List.mem_append.mp hst with hst | hst
        · exact h1 st hst
        · rw [List.mem_singleton.mp hst]
          exact exec_clean prob hn cur c.1 (hl c (by simp)) hcur
      · rw [if_neg hb] at hst
        exact h1 st hst
    · simp only [beamPush]
      by_cases hb : acc.2.1 < me
      · rw [if_pos hb]; exact h2
      · rw [if_neg hb]; exact h2
    · intro c' hc'
      exact hl c' (by simp [hc'])

/-- One beam-member expansion keeps the accumulator clean. -/
lemma beamExpandOne_clean (prob : Problem) (bw me : Nat)
    (hn : ∀ kv ∈ prob.nodes, kv.2.name = kv.1)
    (acc : List ScheduleState × Nat × Option ScheduleState)
    (cur : ScheduleState) (h1 : ∀ st ∈ acc.1, cleanState st)
    (h2 : cleanOpt acc.2.2) (hcur : cleanState cur) :
    (∀ st ∈ (beamExpandOne prob bw me acc cur).1, cleanState st) ∧
      cleanOpt (beamExpandOne prob bw me acc cur).2.2 := by
  simp only [beamExpandOne]
  by_cases hc : cur.computed.length = prob.nodes.length
  · rw [if_pos hc]
    exact ⟨h1, updateBest_clean cur acc.2.2 prob.total_memory hcur h2⟩
  · rw [if_neg hc]
    by_cases hr : (getReadyNodeNames prob cur).isEmpty
    · rw [if_pos hr]; exact ⟨h1, h2⟩
    · rw [if_neg hr]
      apply beamPushFold_clean prob me cur hn hcur _ acc h1 h2
      intro c hc'
      exact mem_beamCands prob cur c (List.mem_of_mem_take hc')

/-- One beam round (the fold over the beam) keeps everything clean. -/
lemma beamRound_clean (prob : Problem) (bw me : Nat)
    (hn : ∀ kv ∈ prob.nodes, kv.2.name = kv.1) :
    ∀ (beam : List ScheduleState)
      (acc : List ScheduleState × Nat × Option ScheduleState),
      (∀ st ∈ beam, cleanState st) →
      (∀ st ∈ acc.1, cleanState st) → cleanOpt acc.2.2 →
      (∀ st ∈ (beam.foldl (beamExpandOne prob bw me) acc).1, cleanState st) ∧
        cleanOpt (beam.foldl (beamExpandOne prob bw me) acc).2.2 := by
  intro beam
  induction beam with
  | nil => intro acc _ h1 h2; exact ⟨h1, h2⟩
  | cons cur rest ih =>
    intro acc hbeam h1 h2
    simp only [List.foldl_cons]
    have hcur : cleanState cur := hbeam cur (by simp)
    have hrest : ∀ st ∈ rest, cleanState st := fun st hst => hbeam st (by simp [hst])
    have hstep := beamExpandOne_clean prob bw me hn acc cur h1 h2 hcur
    exact ih _ hrest hstep.1 hstep.2

/-- The beam-search main loop keeps the beam and best clean. -/
lemma beamLoop_clean (prob : Problem) (bw me : Nat)
    (hn : ∀ kv ∈ prob.nodes, kv.2.name = kv.1) :
    ∀ (fuel : Nat) (beam : List ScheduleState) (expansions : Nat)
      (best : Option ScheduleState),
      (∀ st ∈ beam, cleanState st) → cleanOpt best →
      (∀ st ∈ (beamLoop prob bw me fuel beam expansions best).1, cleanState st) ∧
        cleanOpt (beamLoop prob bw me fuel beam expansions best).2 := by
  intro fuel
  induction fuel with
  | zero => intro beam expansions best h1 h2; exact ⟨h1, h2⟩
  | succ n ih =>
    intro beam expansions best h1 h2
    simp only [beamLoop]
    by_cases hstop : beam.isEmpty ∨ ¬(expansions < me)
    · rw [if_pos hstop]; exact ⟨h1, h2⟩
    · rw [if_neg hstop]
      have hround := beamRound_clean prob bw me hn beam ([], expansions, best)
        h1 (by intro st hst; simp at hst) h2
      by_cases hemp : (beam.foldl (beamExpandOne prob bw me)
          ([], expansions, best)).1.isEmpty
      · rw [if_pos hemp]; exact ⟨h1, hround.2⟩
      · rw [if_neg hemp]
        apply ih
        · intro st hst
          exact hround.1 st (mem_isortBy _ st _ (List.mem_of_mem_take hst))
        · exact hround.2

/-- The result of `beamSearchSchedule` is a clean state. -/
lemma beamSearchSchedule_clean (prob : Problem) (bw me : Nat)
    (hn : ∀ kv ∈ prob.nodes, kv.2.name = kv.1) :
    cleanState (beamSearchSchedule prob bw me) := by
  have h := beamLoop_clean prob (if bw = 0 then 32 else bw)
    (if me = 0 then 200000 else me) hn ((if me = 0 then 200000 else me) + 1)
    [{}] 0 none
    (by intro st hst; rw [List.mem_singleton.mp hst]; exact cleanState_empty)
    trivial
  simp only [beamSearchSchedule]
  cases hm : (beamLoop prob (if bw = 0 then 32 else bw)
      (if me = 0 then 200000 else me) ((if me = 0 then 200000 else me) + 1)
      [{}] 0 none).2 with
  | some b =>
    rw [hm] at h
    exact h.2
  | none =>
    dsimp only
    cases hl : (beamLoop prob (if bw = 0 then 32 else bw)
        (if me = 0 then 200000 else me) ((if me = 0 then 200000 else me) + 1)
        [{}] 0 none).1 with
    | nil => exact cleanState_empty
    | cons st rest =>
      have hclean := h.1 st (by rw [hl]; exact List.mem_cons_self st rest)
      simpa using hclean

/-- The rollout-scoring fold keeps the accumulator's pick or returns a
scanned candidate's name. -/
lemma dpFold_mem (prob : Problem) (ld : Nat) (cur : ScheduleState) :
    ∀ (l : List (String × Int × Int)) (acc : GreedyAcc),
      (l.foldl (dpStep prob ld cur) acc).best = acc.best ∨
        ∃ c ∈ l, (l.foldl (dpStep prob ld cur) acc).best = c.1 := by
  intro l
  induction l with
  | nil => intro acc; exact Or.inl rfl
  | cons c rest ih =>
    intro acc
    simp only [List.foldl_cons]
    rcases ih (dpStep prob ld cur acc c) with h | h
    · rw [h]
      simp only [dpStep]
      split
      · exact Or.inr ⟨c, List.mem_cons_self c rest, rfl⟩
      · exact Or.inl rfl
    · rcases h with ⟨c', hc', heq⟩
      exact Or.inr ⟨c', List.mem_cons_of_mem c hc', heq⟩

/-- The lookahead candidate choice always names a candidate. -/
lemma dpChoose_mem (prob : Problem) (ld : Nat) (cur : ScheduleState)
    (cands : List (String × Int × Int)) (explore : Nat) (h : cands ≠ []) :
    ∃ c ∈ cands, dpChoose prob ld cur cands explore = c.1 := by
  unfold dpChoose
  by_cases hsel : ((cands.take explore).foldl (dpStep prob ld cur)
      ⟨"", 2147483647, 2147483647⟩).best = ""
  · rw [if_pos hsel]
    exact ⟨cands.headD ("", 0, 0), headD_mem cands ("", 0, 0) h, rfl⟩
  · rw [if_neg hsel]
    rcases dpFold_mem prob ld cur (cands.take explore)
        ⟨"", 2147483647, 2147483647⟩ with h' | h'
    · exact absurd h' hsel
    · rcases h' with ⟨c, hc, heq⟩
      exact ⟨c, List.mem_of_mem_take hc, heq⟩

/-- The lookahead loop preserves cleanliness. -/
lemma dpGreedyLoop_clean (prob : Problem) (ld bf : Nat)
    (hn : ∀ kv ∈ prob.nodes, kv.2.name = kv.1) :
    ∀ (fuel : Nat) (cur : ScheduleState), cleanState cur →
      cleanState (dpGreedyLoop prob ld bf fuel cur) := by
  intro fuel
  induction fuel with
  | zero => intro cur h; exact h
  | succ n ih =>
    intro cur h
    simp only [dpGreedyLoop]
    by_cases hc : cur.computed.length < prob.nodes.length
    · rw [if_pos hc]
      by_cases hr : (getReadyNodeNames prob cur).isEmpty
      · rw [if_pos hr]; exact h
      · rw [if_neg hr]
        apply ih
        have hready : getReadyNodeNames prob cur ≠ [] := by
          intro e; rw [e] at hr; exact hr rfl
        have hcands : (isortBy candLess ((getReadyNodeNames prob cur).map
            fun nm => (nm, calculateSequentialPeak cur (findNode prob nm)
              cur.current_memory, (findNode prob nm).time_cost))) ≠ [] := by
          intro e
          have hlen := isortBy_length candLess
            ((getReadyNodeNames prob cur).map fun nm =>
              (nm, calculateSequentialPeak cur (findNode prob nm)
                cur.current_memory, (findNode prob nm).time_cost))
          rw [e] at hlen
          simp only [List.length_nil, List.length_map] at hlen
          exact hready (List.length_eq_zero.mp hlen.symm)
        rcases dpChoose_mem prob ld cur _ _ hcands with ⟨c, hcmem, heq⟩
        rw [heq]
        have hmap := mem_isortBy candLess c _ hcmem
        rcases List.mem_map.mp hmap with ⟨nm, hnm, hf⟩
        have hc1 : c.1 = nm := by rw [← hf]
        rw [hc1]
        rcases mem_getReadyNodeNames prob cur nm hnm with ⟨kv, _, _, hcont, _⟩
        exact exec_clean prob hn cur nm hcont h
    · rw [if_neg hc]; exact h

/-- C10: the fallback schedulers never spill or recompute — for every
name-consistent Problem, each state returned by `greedySchedule`,
`heuristicSchedule`, `beamSearchSchedule`, or `dpGreedySchedule` lists each
node at most once in `execution_order` and has every `recompute_flags`
entry false. -/
theorem fallback_schedulers_no_recompute (prob : Problem) (bw me ld bf : Nat)
    (hn : ∀ kv ∈ prob.nodes, kv.2.name = kv.1) :
    ((greedySchedule prob).execution_order.Nodup ∧
      ∀ f ∈ (greedySchedule prob).recompute_flags, f = false) ∧
    ((heuristicSchedule prob).execution_order.Nodup ∧
      ∀ f ∈ (heuristicSchedule prob).recompute_flags, f = false) ∧
    ((beamSearchSchedule prob bw me).execution_order.Nodup ∧
      ∀ f ∈ (beamSearchSchedule prob bw me).recompute_flags, f = false) ∧
    ((dpGreedySchedule prob ld bf).execution_order.Nodup ∧
      ∀ f ∈ (dpGreedySchedule prob ld bf).recompute_flags, f = false) := by
  have hg := greedyLoop_clean prob hn (prob.nodes.length + 1) {} cleanState_empty
  have hh := heuristicLoop_clean prob hn (prob.nodes.length + 1) {} cleanState_empty
  have hb := beamSearchSchedule_clean prob bw me hn
  have hd := dpGreedyLoop_clean prob (if ld = 0 then 2 else ld)
    (if bf = 0 then 8 else bf) hn (prob.nodes.length + 1) {} cleanState_empty
  exact ⟨⟨hg.2.1, hg.2.2⟩, ⟨hh.2.1, hh.2.2⟩, ⟨hb.2.1, hb.2.2⟩, ⟨hd.2.1, hd.2.2⟩⟩

/-- Witness for C10 on the scenario-1 chain problem. -/
theorem fallback_schedulers_no_recompute_witness :
    (∀ kv ∈ probC5.nodes, kv.2.name = kv.1) ∧
    (((greedySchedule probC5).execution_order.Nodup ∧
      ∀ f ∈ (greedySchedule probC5).recompute_flags, f = false) ∧
    ((heuristicSchedule probC5).execution_order.Nodup ∧
      ∀ f ∈ (heuristicSchedule probC5).recompute_flags, f = false) ∧
    ((beamSearchSchedule probC5 1 1).execution_order.Nodup ∧
      ∀ f ∈ (beamSearchSchedule probC5 1 1).recompute_flags, f = false) ∧
    ((dpGreedySchedule probC5 1 1).execution_order.Nodup ∧
      ∀ f ∈ (dpGreedySchedule probC5 1 1).recompute_flags, f = false)) :=
  ⟨by decide, fallback_schedulers_no_recompute probC5 1 1 1 1 (by decide)⟩

/-- C6 counterexample: `buildProblem` performs no validation — the
node-spec sequence with the dangling input reference `Z` produces a
two-node Problem (construction does not fail), and the core then schedules
it, producing the partial schedule `[A]`; so a malformed Problem is neither
rejected at construction nor kept away from (partial) scheduling. -/
theorem buildProblem_accepts_malformed :
    probC6.nodes.length = 2 ∧
    (greedySchedule probC6).execution_order = ["A"] := by decide

lemma mem_aerase {α : Type} (k : String) (kv : String × α) :
    ∀ l : List (String × α), kv ∈ aerase k l → kv ∈ l := by
  intro l
  induction l with
  | nil => intro h; simp [aerase] at h
  | cons e rest ih =>
    intro h
    simp only [aerase] at h
    by_cases he : e.1 = k
    · rw [if_pos he] at h
      exact List.mem_cons_of_mem e h
    · rw [if_neg he] at h
      rcases List.mem_cons.mp h with h | h
      · exact h ▸ List.mem_cons_self e rest
      · exact List.mem_cons_of_mem e (ih h)

lemma mem_aupdate {α : Type} (k : String) (v : α) (kv : String × α) :
    ∀ l : List (String × α), kv ∈ aupdate k v l → kv = (k, v) ∨ kv ∈ l := by
  intro l
  induction l with
  | nil => intro h; simp [aupdate] at h; exact Or.inl h
  | cons e rest ih =>
    intro h
    simp only [aupdate] at h
    by_cases he : e.1 = k
    · rw [if_pos he] at h
      rcases List.mem_cons.mp h with h | h
      · exact Or.inl h
      · exact Or.inr (List.mem_cons_of_mem e h)
    · rw [if_neg he] at h
      rcases List.mem_cons.mp h with h | h
      · exact Or.inr (h ▸ List.mem_cons_self e rest)
      · rcases ih h with h' | h'
        · exact Or.inl h'
        · exact Or.inr (List.mem_cons_of_mem e h')

lemma mem_freeInputs (kv : String × Int) :
    ∀ (fs : List String) (acc : Int × List (String × Int)),
      kv ∈ (freeInputs fs acc).2 → kv ∈ acc.2 := by
  intro fs
  induction fs with
  | nil => intro acc h; exact h
  | cons f rest ih =>
    intro acc h
    simp only [freeInputs, List.foldl_cons] at h
    cases hlo : alookup f acc.2 with
    | none => rw [hlo] at h; exact ih acc h
    | some v =>
      rw [hlo] at h
      exact mem_aerase f kv acc.2 (ih _ h)

/-- Every resident output of an `executeNode` result is keyed by a node of
the problem or survives from the previous state. -/
lemma executeNode_output_keys (prob : Problem) (s : ScheduleState)
    (nm : String) (kv : String × Int)
    (h : kv ∈ (executeNode nm prob s).output_memory) :
    kv.1 = (findNode prob nm).name ∨ kv ∈ s.output_memory := by
  simp only [executeNode] at h
  rcases mem_aupdate _ _ kv _ h with h' | h'
  · exact Or.inl (by rw [h'])
  · exact Or.inr (mem_freeInputs kv _ _ h')

/-- Executing any ready node preserves `danglingInv` when `nm`'s input
`inp` references no node of the problem. -/
lemma greedy_step_danglingInv (prob : Problem) (nm : String) (node : Node)
    (inp : String)
    (hnodup : (prob.nodes.map Prod.fst).Nodup)
    (hn : ∀ kv ∈ prob.nodes, kv.2.name = kv.1)
    (hlu : alookup nm prob.nodes = some node) (hinp : inp ∈ node.inputs)
    (hdangling : ∀ kv ∈ prob.nodes, kv.1 ≠ inp)
    (s : ScheduleState) (x : String) (hx : x ∈ getReadyNodeNames prob s)
    (h : danglingInv prob nm s) :
    danglingInv prob nm (executeNode x prob s) := by
  rcases mem_getReadyNodeNames prob s x hx with ⟨kv, hkvmem, hkv1, _, hres⟩
  have hxname : (findNode prob x).name = x := findNode_name prob hn x
  have hxnm : x ≠ nm := by
    intro he
    have halo : alookup kv.1 prob.nodes = some kv.2 :=
      alookup_of_mem_nodup kv prob.nodes hkvmem hnodup
    rw [hkv1, he, hlu] at halo
    injection halo with halo
    have hresinp : isResident s inp = true := by
      apply hres
      rw [← halo]
      exact hinp
    unfold isResident at hresinp
    rcases (alookup_isSome_iff inp s.output_memory).mp hresinp with ⟨e, he', he1⟩
    rcases h.1 e he' with ⟨e2, he2, he21⟩
    exact hdangling e2 he2 (he21.trans he1)
  constructor
  · intro kv' hkv'
    rcases executeNode_output_keys prob s x kv' hkv' with h' | h'
    · exact ⟨kv, hkvmem, by rw [hkv1, ← hxname, h']⟩
    · exact h.1 kv' h'
  · rw [executeNode_order, hxname]
    intro hmem
    rcases List.mem_append.mp hmem with hm | hm
    · exact h.2 hm
    · exact hxnm (List.mem_singleton.mp hm).symm

/-- The greedy loop preserves `danglingInv`. -/
lemma greedyLoop_danglingInv (prob : Problem) (nm : String) (node : Node)
    (inp : String)
    (hnodup : (prob.nodes.map Prod.fst).Nodup)
    (hn : ∀ kv ∈ prob.nodes, kv.2.name = kv.1)
    (hlu : alookup nm prob.nodes = some node) (hinp : inp ∈ node.inputs)
    (hdangling : ∀ kv ∈ prob.nodes, kv.1 ≠ inp) :
    ∀ (fuel : Nat) (cur : ScheduleState), danglingInv prob nm cur →
      danglingInv prob nm (greedyLoop prob fuel cur) := by
  intro fuel
  induction fuel with
  | zero => intro cur h; exact h
  | succ n ih =>
    intro cur h
    simp only [greedyLoop]
    by_cases hc : cur.computed.length < prob.nodes.length
    · rw [if_pos hc]
      by_cases hr : (getReadyNodeNames prob cur).isEmpty
      · rw [if_pos hr]; exact h
      · rw [if_neg hr]
        by_cases hsel : (greedySelect prob cur (getReadyNodeNames prob cur)
            ⟨"", 2147483647, 2147483647⟩).best = ""
        · rw [if_pos hsel]; exact h
        · rw [if_neg hsel]
          apply ih
          rcases greedySelect_mem prob cur (getReadyNodeNames prob cur)
              ⟨"", 2147483647, 2147483647⟩ with h' | h'
          · exact absurd h' hsel
          · exact greedy_step_danglingInv prob nm node inp hnodup hn hlu hinp
              hdangling cur _ h' h
    · rw [if_neg hc]; exact h

/-- C6 (amended): Problem construction never rejects — `buildProblem` is
total and the core schedules malformed Problems; but a node one of whose
inputs references no defined node can never become ready, so it is never
executed: for every name-consistent, duplicate-free Problem, a node with a
dangling input is absent from the greedy schedule's execution order (the
malformed part of the graph silently yields an incomplete schedule). -/
theorem dangling_input_never_executed (prob : Problem) (nm : String)
    (node : Node) (inp : String)
    (hnodup : (prob.nodes.map Prod.fst).Nodup)
    (hn : ∀ kv ∈ prob.nodes, kv.2.name = kv.1)
    (hlu : alookup nm prob.nodes = some node) (hinp : inp ∈ node.inputs)
    (hdangling : ∀ kv ∈ prob.nodes, kv.1 ≠ inp) :
    nm ∉ (greedySchedule prob).execution_order :=
  (greedyLoop_danglingInv prob nm node inp hnodup hn hlu hinp hdangling
    (prob.nodes.length + 1) {} ⟨by intro kv h; simp at h, by simp⟩).2

/-- Witness for the amended C6 theorem on the concrete malformed problem:
`B` (whose input `Z` is undefined) never appears in the greedy schedule. -/
theorem dangling_input_never_executed_witness :
    ((probC6.nodes.map Prod.fst).Nodup ∧
      (∀ kv ∈ probC6.nodes, kv.2.name = kv.1) ∧
      alookup "B" probC6.nodes = some (mkNode "B" ["Z"] 0 5 1) ∧
      "Z" ∈ (mkNode "B" ["Z"] 0 5 1).inputs ∧
      (∀ kv ∈ probC6.nodes, kv.1 ≠ "Z")) ∧
    "B" ∉ (greedySchedule probC6).execution_order :=
  ⟨⟨by decide, by decide, by decide, by decide, by decide⟩,
    dangling_input_never_executed probC6 "B" (mkNode "B" ["Z"] 0 5 1) "Z"
      (by decide) (by decide) (by decide) (by decide) (by decide)⟩

/-- With duplicate-free keys, `findNode` at an entry's key is that entry's
node. -/
lemma findNode_of_mem (prob : Problem) (kv : String × Node)
    (hm : kv ∈ prob.nodes) (hnodup : (prob.nodes.map Prod.fst).Nodup) :
    findNode prob kv.1 = kv.2 := by
  unfold findNode
  rw [alookup_of_mem_nodup kv prob.nodes hm hnodup]
  rfl

/-- Every candidate of the bounded DFS (ready or recompute) has all its
inputs resident in the state it would execute from. -/
lemma dfsReady_inputs_resident (prob : Problem) (s : ScheduleState)
    (nm : String) (hnodup : (prob.nodes.map Prod.fst).Nodup)
    (h : nm ∈ dfsReady prob s) :
    ∀ inp ∈ (findNode prob nm).inputs, isResident s inp = true := by
  unfold dfsReady at h
  by_cases hr : (getReadyNodeNames prob s).isEmpty
  · rw [if_pos hr] at h
    rcases mem_getRecomputeCandidates prob s nm h with ⟨kv, hkvm, hkv1, hres⟩
    have hfn : findNode prob nm = kv.2 := by
      rw [← hkv1]; exact findNode_of_mem prob kv hkvm hnodup
    rw [hfn]; exact hres
  · rw [if_neg hr] at h
    rcases mem_getReadyNodeNames prob s nm h with ⟨kv, hkvm, hkv1, _, hres⟩
    have hfn : findNode prob nm = kv.2 := by
      rw [← hkv1]; exact findNode_of_mem prob kv hkvm hnodup
    rw [hfn]; exact hres

/-- Appending a node whose inputs all occur in the list preserves the
topological order. -/
lemma ordOKList_append (prob : Problem) (l : List String) (x : String)
    (h1 : ordOKList prob l)
    (h2 : ∀ inp ∈ (findNode prob x).inputs, inp ∈ l) :
    ordOKList prob (l ++ [x]) := by
  intro i hi inp hinp
  have hi' : i < l.length + 1 := by
    rw [List.length_append, List.length_singleton] at hi
    exact hi
  by_cases hlt : i < l.length
  · rw [List.get_append i hlt] at hinp
    rw [List.take_append_of_le_length (le_of_lt hlt)]
    exact h1 i hlt inp hinp
  · have hieq : i = l.length := by omega
    subst hieq
    have hx : (l ++ [x]).get ⟨l.length, hi⟩ = x := by
      simp [List.get_eq_getElem]
    rw [hx] at hinp
    rw [List.take_left]
    exact h2 inp hinp

lemma exec_resInOrder (prob : Problem) (s : ScheduleState) (nm : String)
    (h : resInOrder s) : resInOrder (executeNode nm prob s) := by
  intro k hk
  rw [executeNode_order]
  rcases executeNode_resident prob s nm k hk with h' | h'
  · exact List.mem_append.mpr (Or.inr (List.mem_singleton.mpr h'))
  · exact List.mem_append.mpr (Or.inl (h k h'))

/-- Spilling via `trySpillBest` keeps the execution order and only evicts outputs. -/
lemma trySpillBest_shape (prob : Problem) (s : ScheduleState) :
    (trySpillBest prob s).2.execution_order = s.execution_order ∧
    ∀ k, isResident (trySpillBest prob s).2 k = true →
      isResident s k = true := by
  unfold trySpillBest
  dsimp only
  split
  · refine ⟨rfl, ?_⟩
    intro k hk
    exact alookup_aerase_isSome k _ s.output_memory hk
  · exact ⟨rfl, fun k hk => hk⟩

/-- Spilling via `trySpillLargest` keeps the execution order and only evicts outputs. -/
lemma trySpillLargest_shape (s : ScheduleState) :
    (trySpillLargest s).2.execution_order = s.execution_order ∧
    ∀ k, isResident (trySpillLargest s).2 k = true →
      isResident s k = true := by
  unfold trySpillLargest
  split
  · exact ⟨rfl, fun k hk => hk⟩
  · refine ⟨rfl, ?_⟩
    intro k hk
    exact alookup_aerase_isSome k _ s.output_memory hk

/-- A successful spill of the bounded DFS keeps the execution order and
only evicts outputs. -/
lemma dfsSpill_shape (prob : Problem) (s s' : ScheduleState)
    (h : dfsSpill prob s = some s') :
    s'.execution_order = s.execution_order ∧
    ∀ k, isResident s' k = true → isResident s k = true := by
  unfold dfsSpill at h
  dsimp only at h
  have h1 := trySpillBest_shape prob s
  split at h
  · injection h with h
    rw [← h]
    exact h1
  · have h2 := trySpillLargest_shape (trySpillBest prob s).2
    split at h
    · injection h with h
      rw [← h]
      exact ⟨h2.1.trans h1.1, fun k hk => h1.2 k (h2.2 k hk)⟩
    · exact Option.noConfusion h

/-- Invariant of the bounded DFS: every reachable state's resident outputs
come from executed nodes, and its execution order is topologically
sound. -/
lemma reach_resInOrder_ordOK (prob : Problem)
    (hnodup : (prob.nodes.map Prod.fst).Nodup)
    (hn : ∀ kv ∈ prob.nodes, kv.2.name = kv.1)
    (s : ScheduleState) (h : ReachDFS prob s) :
    resInOrder s ∧ ordOKList prob s.execution_order := by
  induction h with
  | init =>
    constructor
    · intro k hk
      simp [isResident, alookup] at hk
    · intro i hi
      simp at hi
  | exec s nm hre hc hr hmem hall hpk ih =>
    refine ⟨exec_resInOrder prob s nm ih.1, ?_⟩
    rw [executeNode_order, findNode_name prob hn nm]
    apply ordOKList_append prob _ nm ih.2
    intro inp hinp
    have hready : nm ∈ dfsReady prob s :=
      mem_pruneReadyListDynamic (dfsReady prob s) prob s nm hmem
    exact ih.1 inp (dfsReady_inputs_resident prob s nm hnodup hready inp hinp)
  | spill s s' hre hc hr hall hsp ih =>
    obtain ⟨horder, hres⟩ := dfsSpill_shape prob s s' hsp
    constructor
    · intro k hk
      rw [horder]
      exact ih.1 k (hres k hk)
    · rw [horder]
      exact ih.2

/-- C4: topological correctness of the bounded DFS. Every state it can
reach from the empty state has a topologically sound `execution_order` —
every input of the node at position `i` already occurs among the first `i`
executed names — and every candidate it may execute next (the pruned
ready-or-recompute frontier, i.e. the node at position `i` at the moment
step `i` runs) has all its inputs resident in `output_memory` at that
moment. -/
theorem dfs_topological_correct (prob : Problem)
    (hnodup : (prob.nodes.map Prod.fst).Nodup)
    (hn : ∀ kv ∈ prob.nodes, kv.2.name = kv.1)
    (s : ScheduleState) (h : ReachDFS prob s) :
    ordOKList prob s.execution_order ∧
    ∀ nm ∈ dfsPruned prob s, ∀ inp ∈ (findNode prob nm).inputs,
      isResident s inp = true := by
  refine ⟨(reach_resInOrder_ordOK prob hnodup hn s h).2, ?_⟩
  intro nm hmem inp hinp
  exact dfsReady_inputs_resident prob s nm hnodup
    (mem_pruneReadyListDynamic (dfsReady prob s) prob s nm hmem) inp hinp

/-- Witness for C4 at the state reached by executing the single node. -/
theorem dfs_topological_correct_witness :
    ((probC4w.nodes.map Prod.fst).Nodup ∧
      ∀ kv ∈ probC4w.nodes, kv.2.name = kv.1) ∧
    (ordOKList probC4w (executeNode "N" probC4w {}).execution_order ∧
      ∀ nm ∈ dfsPruned probC4w (executeNode "N" probC4w {}),
        ∀ inp ∈ (findNode probC4w nm).inputs,
          isResident (executeNode "N" probC4w {}) inp = true) :=
  ⟨⟨by decide, by decide⟩,
    dfs_topological_correct probC4w (by decide) (by decide) _
      (ReachDFS.exec {} "N" ReachDFS.init (by decide) (by decide) (by decide)
        (by decide) (by decide))⟩
